import Mathlib

/-!
Verification development for the target-assignment and loss core of a
multi-scale anchor-based object detector (`tools.py`).

The Python/numpy/torch code is shallowly embedded:
* exact rational arithmetic (`ℚ`) replaces float64 in the assignment
  encoder (`compute_iou`, `set_anchors`, `generate_anchor`,
  `multi_gt_creator`); real arithmetic (`ℝ`) is used for the IoU family
  (`iou_score`, `DIoU`, `CIoU`) whose source uses `sqrt`/`atan`;
* vectorized numpy/torch operations are embedded elementwise (the batch
  reshapes `view`/`reshape` are value-preserving re-indexings, embedded
  explicitly where a claim mentions the returned layout);
* Python exceptions (assertion failures, numpy `IndexError`,
  `ZeroDivisionError`) are embedded as `Except.error`;
* `np.log` appears only in values never inspected by any claim (the
  `tw`,`th` channels); it is passed as an explicit function parameter so
  that the development stays executable;
* automatic differentiation (for the stop-gradient question about `CIoU`)
  is embedded with forward-mode dual numbers whose rules mirror torch
  autograd primitives.
-/

namespace Yolo

/-- The `1e-20` stabilizer used in the IoU union denominators, exact. -/
def eps20 : ℚ := 1 / 10 ^ 20

/-- Python `int(q)`: truncation toward zero. -/
def pyInt (q : ℚ) : ℤ := if 0 ≤ q then ⌊q⌋ else -⌊-q⌋

/-- numpy integer indexing into an axis of length `n`: nonnegative indices
are bounds-checked, negative indices wrap once, anything else raises
`IndexError` (embedded as `none`). -/
def npIdx (i : ℤ) (n : ℕ) : Option ℕ :=
  if 0 ≤ i ∧ i < (n : ℤ) then some i.toNat
  else if -(n : ℤ) ≤ i ∧ i < 0 then some (i + n).toNat
  else none

/-- `np.argmax` auxiliary scan: first index of the maximum wins ties. -/
def argmaxGo (bv : ℚ) (bi i : ℕ) : List ℚ → ℕ
  | [] => bi
  | y :: ys => if bv < y then argmaxGo y i (i + 1) ys else argmaxGo bv bi (i + 1) ys

/-- `np.argmax` over a 1-d array: index of the first occurrence of the
maximum; raises (`none`) on an empty array. -/
def npArgmax : List ℚ → Option ℕ
  | [] => none
  | x :: xs => some (argmaxGo x 0 1 xs)

/-- A box in center form `[c_x, c_y, w, h]` as used by `compute_iou` and
`set_anchors`. -/
structure CBox where
  cx : ℚ
  cy : ℚ
  w : ℚ
  h : ℚ
deriving DecidableEq

/-- `I_w` of `compute_iou`: horizontal intersection extent (not clamped). -/
def iW (ab gt : CBox) : ℚ :=
  min (gt.cx + gt.w / 2) (ab.cx + ab.w / 2) - max (gt.cx - gt.w / 2) (ab.cx - ab.w / 2)

/-- `I_h` of `compute_iou`: vertical intersection extent (not clamped). -/
def iH (ab gt : CBox) : ℚ :=
  min (gt.cy + gt.h / 2) (ab.cy + ab.h / 2) - max (gt.cy - gt.h / 2) (ab.cy - ab.h / 2)

/-- One lane of `compute_iou`: the IoU of a single anchor box against the
(gt) box, exactly as computed in the source (`S_I = I_h * I_w`,
`U = S_gt + S_ab - S_I + 1e-20`, `IoU = S_I / U`). -/
def computeIouOne (ab gt : CBox) : ℚ :=
  let S_gt := gt.w * gt.h
  let S_ab := ab.w * ab.h
  let S_I := iH ab gt * iW ab gt
  let U := S_gt + S_ab - S_I + eps20
  S_I / U

/-- `compute_iou(anchor_boxes, gt_box)`: the gt row is broadcast
(`np.repeat`) against every anchor row; embedded elementwise. -/
def compute_iou (anchor_boxes : List CBox) (gt_box : CBox) : List ℚ :=
  anchor_boxes.map (fun ab => computeIouOne ab gt_box)

/-- `set_anchors(anchor_size)`: wraps each `(w, h)` into the
origin-anchored box `[0, 0, w, h]`. -/
def set_anchors (anchor_size : List (ℚ × ℚ)) : List CBox :=
  anchor_size.map (fun s => ⟨0, 0, s.1, s.2⟩)

/-- `np.floor(np.sqrt(q))` for `0 ≤ q`, exact. -/
def floorSqrt (q : ℚ) : ℚ := (Nat.sqrt q.floor.toNat : ℚ)

/-- `generate_anchor(input_size, stride, anchor_scale, anchor_aspect)`:
the `assert len(anchor_scale) == len(anchor_aspect)` is embedded as an
`Except.error`; each (scale, aspect list) pair contributes one
`[ab_w, ab_w * a]` entry per aspect `a`. -/
def generate_anchor (input_size : ℕ × ℕ) (stride : ℕ) (anchor_scale : List ℚ)
    (anchor_aspect : List (List ℚ)) : Except String (List (ℚ × ℚ)) :=
  if anchor_scale.length = anchor_aspect.length then
    let h := input_size.1
    let w := input_size.2
    let hs := h / stride
    let ws := w / stride
    let S_fmap : ℚ := (hs * ws : ℕ)
    Except.ok <|
      (anchor_scale.zip anchor_aspect).flatMap fun p =>
        p.2.map fun a =>
          let S_ab := S_fmap * p.1
          let ab_w := floorSqrt S_ab
          (ab_w, ab_w * a)
  else Except.error "AssertionError"

example : pyInt (-1/2) = 0 := by norm_num [pyInt]
example : pyInt (9/4) = 2 := by norm_num [pyInt]
example : npIdx 2 2 = none := by norm_num [npIdx]
example : npIdx (-1) 3 = some 2 := by norm_num [npIdx]; rfl
example : npArgmax [1, 3, 3, 2] = some 1 := by norm_num [npArgmax, argmaxGo]
example : computeIouOne ⟨0, 0, 10, 10⟩ ⟨0, 0, 10, 10⟩ = 100 / (100 + eps20) := by
  norm_num [computeIouOne, iW, iH, eps20]

/-- A ground-truth label row `[xmin, ymin, xmax, ymax, class]`
(coordinates normalized to `[0,1]` by contract, class a float holding an
integer id). -/
structure Label where
  xmin : ℚ
  ymin : ℚ
  xmax : ℚ
  ymax : ℚ
  cls : ℚ

/-- The fixed inputs of one `multi_gt_creator` call: `input_size = (h, w)`,
`strides`, `anchor_size`, the global `ignore_thresh`, and the real
logarithm used for the `tw`,`th` channels.

`ignore_thresh` is `IGNORE_THRESH`, imported from the repository's `data`
module which is not part of the analyzed sources. Modelled from the spec:
"`ignore_thresh`: single global float configuration" — an explicit
parameter, with no fixed numeric value.

`log` abstracts `np.log`; it only feeds the `tw`,`th` channels (2 and 3 of
the regression block), whose numeric values no claim inspects. -/
structure Cfg where
  h : ℕ
  w : ℕ
  strides : List ℕ
  anchor_size : List (ℚ × ℚ)
  ignore_thresh : ℚ
  log : ℚ → ℚ

/-- `anchor_number = len(all_anchor_size) // num_scale` (floor division). -/
def Cfg.anchorNumber (c : Cfg) : ℕ := c.anchor_size.length / c.strides.length

/-- One scale's target array, indexed `(batch, grid_y, grid_x, anchor,
channel)`; channels are `1+1+4+1+4 = 11` wide. -/
def ScaleTensor : Type := ℕ → ℕ → ℕ → ℕ → ℕ → ℚ

/-- `np.zeros`: the all-zero scale tensor. -/
def zeroTensor : ScaleTensor := fun _ _ _ _ _ => 0

/-- The list of per-scale target tensors (`gt_tensor` in the source). -/
abbrev GtState : Type := List ScaleTensor

/-- The freshly allocated per-scale zero tensors. -/
def initState (strides : List ℕ) : GtState := strides.map (fun _ => zeroTensor)

/-- A single numpy element assignment `t[b, gy, gx, ab, ch] = v`. -/
def writeCell (t : ScaleTensor) (b gy gx ab ch : ℕ) (v : ℚ) : ScaleTensor :=
  fun b' gy' gx' ab' ch' =>
    if b' = b ∧ gy' = gy ∧ gx' = gx ∧ ab' = ab ∧ ch' = ch then v
    else t b' gy' gx' ab' ch'

/-- Read `gt_tensor[s][b, gy, gx, ab, ch]`. -/
def readSt (st : GtState) (s b gy gx ab ch : ℕ) : ℚ :=
  (st.getD s zeroTensor) b gy gx ab ch

/-- `c_x = (xmax + xmin) / 2 * w`. -/
def cX (c : Cfg) (lab : Label) : ℚ := (lab.xmax + lab.xmin) / 2 * c.w

/-- `c_y = (ymax + ymin) / 2 * h`. -/
def cY (c : Cfg) (lab : Label) : ℚ := (lab.ymax + lab.ymin) / 2 * c.h

/-- `box_w = (xmax - xmin) * w`. -/
def boxW (c : Cfg) (lab : Label) : ℚ := (lab.xmax - lab.xmin) * c.w

/-- `box_h = (ymax - ymin) * h`. -/
def boxH (c : Cfg) (lab : Label) : ℚ := (lab.ymax - lab.ymin) * c.h

/-- `weight = 2.0 - (box_w / w) * (box_h / h)`. -/
def weightOf (c : Cfg) (lab : Label) : ℚ :=
  2 - (boxW c lab / c.w) * (boxH c lab / c.h)

/-- The per-instance IoU vector: `compute_iou(set_anchors(...), [[0, 0,
box_w, box_h]])`. -/
def iouListOf (c : Cfg) (lab : Label) : List ℚ :=
  compute_iou (set_anchors c.anchor_size) ⟨0, 0, boxW c lab, boxH c lab⟩

/-- `s_indx = index // anchor_number`. -/
def sIdxOf (c : Cfg) (index : ℕ) : ℕ := index / c.anchorNumber

/-- `ab_ind = index - s_indx * anchor_number`. -/
def abIdxOf (c : Cfg) (index : ℕ) : ℕ := index - sIdxOf c index * c.anchorNumber

/-- The block of element assignments to `gt_tensor[s_indx][batch_index,
grid_y, grid_x, ab_ind, :]` performed for the positive anchor, in source
statement order (channels 0, 1, 2:6, 6, 7:). -/
def posBlock (t : ScaleTensor) (b gy gx ab : ℕ)
    (cls tx ty tw th weight xmin ymin xmax ymax : ℚ) : ScaleTensor :=
  let t0 := writeCell t b gy gx ab 0 1
  let t1 := writeCell t0 b gy gx ab 1 cls
  let t2 := writeCell t1 b gy gx ab 2 tx
  let t3 := writeCell t2 b gy gx ab 3 ty
  let t4 := writeCell t3 b gy gx ab 4 tw
  let t5 := writeCell t4 b gy gx ab 5 th
  let t6 := writeCell t5 b gy gx ab 6 weight
  let t7 := writeCell t6 b gy gx ab 7 xmin
  let t8 := writeCell t7 b gy gx ab 8 ymin
  let t9 := writeCell t8 b gy gx ab 9 xmax
  writeCell t9 b gy gx ab 10 ymax

/-- The positive-anchor assignment for flattened anchor `index` (source
lines 170–196, repeated verbatim at 205–233): decompose the index,
fetch stride and anchor shape, compute the grid cell and regression
targets, and perform the bounds-checked write (the upper-bound check
`grid_y < shape[1] and grid_x < shape[2]`; a write whose check passes but
whose numpy index is still invalid raises). -/
def posAssign (c : Cfg) (b : ℕ) (lab : Label) (index : ℕ) (st : GtState) :
    Except String GtState :=
  if c.anchorNumber = 0 then Except.error "ZeroDivisionError" else
  let s_indx := sIdxOf c index
  let ab_ind := abIdxOf c index
  match c.strides.get? s_indx with
  | none => Except.error "IndexError: strides"
  | some s =>
    if s = 0 then Except.error "ZeroDivisionError" else
    match (set_anchors c.anchor_size).get? index with
    | none => Except.error "IndexError: anchor_boxes"
    | some pbox =>
      let c_x_s := cX c lab / (s : ℚ)
      let c_y_s := cY c lab / (s : ℚ)
      let grid_x : ℤ := pyInt c_x_s
      let grid_y : ℤ := pyInt c_y_s
      let tx := c_x_s - grid_x
      let ty := c_y_s - grid_y
      let tw := c.log (boxW c lab / pbox.w)
      let th := c.log (boxH c lab / pbox.h)
      let shape1 := c.h / s
      let shape2 := c.w / s
      if grid_y < (shape1 : ℤ) ∧ grid_x < (shape2 : ℤ) then
        match npIdx grid_y shape1, npIdx grid_x shape2 with
        | some gy, some gx =>
            Except.ok (st.set s_indx
              (posBlock (st.getD s_indx zeroTensor) b gy gx ab_ind
                (pyInt lab.cls : ℚ) tx ty tw th (weightOf c lab)
                lab.xmin lab.ymin lab.xmax lab.ymax))
        | _, _ => Except.error "IndexError"
      else Except.ok st

/-- The pair of element assignments performed for an ignored anchor
(source lines 245–246, in statement order): `objectness = -1` (channel 0)
then `scale_weight = -1` (channel 6). -/
def ignBlock (t : ScaleTensor) (b gy gx ab : ℕ) : ScaleTensor :=
  writeCell (writeCell t b gy gx ab 0 (-1)) b gy gx ab 6 (-1)

/-- The ignored-anchor assignment for flattened anchor `index` (source
lines 237–246): writes `objectness = -1` (channel 0) and
`scale_weight = -1` (channel 6). These two writes carry no bounds check,
so an out-of-extent grid cell raises `IndexError`. -/
def ignAssign (c : Cfg) (b : ℕ) (lab : Label) (index : ℕ) (st : GtState) :
    Except String GtState :=
  if c.anchorNumber = 0 then Except.error "ZeroDivisionError" else
  let s_indx := sIdxOf c index
  let ab_ind := abIdxOf c index
  match c.strides.get? s_indx with
  | none => Except.error "IndexError: strides"
  | some s =>
    if s = 0 then Except.error "ZeroDivisionError" else
    let grid_x : ℤ := pyInt (cX c lab / (s : ℚ))
    let grid_y : ℤ := pyInt (cY c lab / (s : ℚ))
    match npIdx grid_y (c.h / s), npIdx grid_x (c.w / s) with
    | some gy, some gx =>
        Except.ok (st.set s_indx
          (ignBlock (st.getD s_indx zeroTensor) b gy gx ab_ind))
    | _, _ => Except.error "IndexError"

/-- The `for index, iou_m in enumerate(iou_mask)` loop of the
above-threshold branch: the running enumerate counter is `i`, the list is
the iou vector, and `iou_m` is the mask condition `iou[index] >
ignore_thresh` tested entrywise. -/
def igLoop (c : Cfg) (b : ℕ) (lab : Label) (best : ℕ) :
    ℕ → List ℚ → GtState → Except String GtState
  | _, [], st => Except.ok st
  | i, x :: rest, st =>
    if c.ignore_thresh < x then
      if i = best then
        match posAssign c b lab i st with
        | Except.error e => Except.error e
        | Except.ok st1 => igLoop c b lab best (i + 1) rest st1
      else
        match ignAssign c b lab i st with
        | Except.error e => Except.error e
        | Except.ok st1 => igLoop c b lab best (i + 1) rest st1
    else igLoop c b lab best (i + 1) rest st

/-- Processing of one ground-truth instance (the body of the inner loop of
`multi_gt_creator`): skip sub-pixel boxes, compute the shape IoU against
all anchors of all scales, then either force-assign the argmax anchor
(`iou_mask.sum() == 0`: no candidate above `ignore_thresh`) or run the
best/ignored partition loop. -/
def encodeLabel (c : Cfg) (b : ℕ) (st : GtState) (lab : Label) :
    Except String GtState :=
  if boxW c lab < 1 ∨ boxH c lab < 1 then Except.ok st
  else
    let iou := iouListOf c lab
    if ∀ x ∈ iou, ¬ c.ignore_thresh < x then
      match npArgmax iou with
      | none => Except.error "ValueError: argmax of an empty sequence"
      | some index => posAssign c b lab index st
    else
      match npArgmax iou with
      | none => Except.error "ValueError: argmax of an empty sequence"
      | some best => igLoop c b lab best 0 iou st

/-- `for gt_label in label_lists[batch_index]`. -/
def labelLoop (c : Cfg) (b : ℕ) : List Label → GtState → Except String GtState
  | [], st => Except.ok st
  | lab :: rest, st =>
    match encodeLabel c b st lab with
    | Except.error e => Except.error e
    | Except.ok st1 => labelLoop c b rest st1

/-- `for batch_index in range(batch_size)`. -/
def batchLoop (c : Cfg) : ℕ → List (List Label) → GtState → Except String GtState
  | _, [], st => Except.ok st
  | b, labs :: rest, st =>
    match labelLoop c b labs st with
    | Except.error e => Except.error e
    | Except.ok st1 => batchLoop c (b + 1) rest st1

/-- `multi_gt_creator(input_size, strides, label_lists, anchor_size)`: the
per-scale tensors after all instances are encoded. An empty `strides`
raises `ZeroDivisionError` at `anchor_number = len(anchor_size) //
num_scale`; a zero stride raises `ZeroDivisionError` at the setup
allocation `np.zeros([batch_size, h//s, w//s, anchor_number, 11])`,
before any label is processed. The final reshape/concatenation is
`flattenOut` below. -/
def multi_gt_creator (c : Cfg) (label_lists : List (List Label)) :
    Except String GtState :=
  if c.strides.length = 0 then Except.error "ZeroDivisionError"
  else if 0 ∈ c.strides then Except.error "ZeroDivisionError"
  else batchLoop c 0 label_lists (initState c.strides)

/-- The trailing `reshape(batch_size, -1, 11)` + `np.concatenate(_, 1)`:
per scale, rows are row-major over `(grid_y, grid_x, anchor)`, scales are
concatenated in stride order. -/
def flattenScales (h w A : ℕ) : List (ℕ × ScaleTensor) → ℕ → ℕ → ℕ → ℚ
  | [], _, _, _ => 0
  | (s, t) :: rest, b, row, ch =>
    let hs := h / s
    let ws := w / s
    let n := hs * ws * A
    if row < n then t b (row / (ws * A)) (row % (ws * A) / A) (row % (ws * A) % A) ch
    else flattenScales h w A rest b (row - n) ch

/-- The `[batch, Σ_s H_s·W_s·anchor_number, 11]` tensor returned by
`multi_gt_creator`, as a function of (batch, row, channel). -/
def flattenOut (c : Cfg) (st : GtState) : ℕ → ℕ → ℕ → ℚ :=
  flattenScales c.h c.w c.anchorNumber (c.strides.zip st)

/-! ## The torch IoU family (`iou_score`, `IoU`, `DIoU`, `CIoU`)

These operate lane-wise over `[B*N, 4]` tensors; the embedding is per
lane (one box pair), over `ℝ` since the source uses `sqrt` and `atan`.
The `view` reshapes are value-preserving and drop out lane-wise. -/

/-- A box in corner form `[x1, y1, x2, y2]`. -/
structure RBox where
  x1 : ℝ
  y1 : ℝ
  x2 : ℝ
  y2 : ℝ

/-- The `1e-20` stabilizer, over `ℝ`. -/
noncomputable def reps20 : ℝ := 1 / 10 ^ 20

/-- The `1e-15` offset used by `CIoU`, over `ℝ`. -/
noncomputable def reps15 : ℝ := 1 / 10 ^ 15

/-- `iou_score(bboxes_a, bboxes_b)`: `tl = max(a[:, :2], b[:, :2])`,
`br = min(a[:, 2:], b[:, 2:])`, `en = (tl < br).prod(dim=1)` as a 0/1
factor, `area_i = prod(br - tl) * en`, result
`area_i / (area_a + area_b - area_i + 1e-20)`. -/
noncomputable def iou_score (a b : RBox) : ℝ :=
  let tlx := max a.x1 b.x1
  let tly := max a.y1 b.y1
  let brx := min a.x2 b.x2
  let bry := min a.y2 b.y2
  let area_a := (a.x2 - a.x1) * (a.y2 - a.y1)
  let area_b := (b.x2 - b.x1) * (b.y2 - b.y1)
  let en := (if tlx < brx then (1 : ℝ) else 0) * (if tly < bry then (1 : ℝ) else 0)
  let area_i := (brx - tlx) * (bry - tly) * en
  area_i / (area_a + area_b - area_i + reps20)

/-- `IoU(bboxes_a, bboxes_b, batch_size)`: `iou_score` followed by a
shape-only `view` (identity lane-wise). -/
noncomputable def IoU (a b : RBox) : ℝ := iou_score a b

/-- `DIoU(bboxes_a, bboxes_b, batch_size)`: `IoU` minus the squared
center distance over the squared enclosing-box diagonal (the `max`/`min`
reductions over `x1234`/`y1234` fold in concatenation order
`[a.x1, a.x2, b.x1, b.x2]`). -/
noncomputable def DIoU (a b : RBox) : ℝ :=
  let C := Real.sqrt ((max (max (max a.x1 a.x2) b.x1) b.x2 -
                       min (min (min a.x1 a.x2) b.x1) b.x2) ^ 2 +
                      (max (max (max a.y1 a.y2) b.y1) b.y2 -
                       min (min (min a.y1 a.y2) b.y1) b.y2) ^ 2)
  let points_1_x := (a.x1 + a.x2) / 2
  let points_1_y := (a.y1 + a.y2) / 2
  let points_2_x := (b.x1 + b.x2) / 2
  let points_2_y := (b.y1 + b.y2) / 2
  let D := Real.sqrt ((points_2_x - points_1_x) ^ 2 + (points_2_y - points_1_y) ^ 2)
  let iou := IoU a b
  let lens := D ^ 2 / (C ^ 2 + reps20)
  iou - lens

/-- The aspect penalty `v` exactly as the source computes it:
`4/π² * ((atan(Δx₁/(Δy₁+1e-15)) - atan(Δx₂/(Δy₂+1e-15)))² + 1e-15)` —
note the extra additive `1e-15` inside the outer parenthesis, and the
`1e-15` offsets on the height denominators only. -/
noncomputable def vAspect (a b : RBox) : ℝ :=
  4 / Real.pi ^ 2 *
    ((Real.arctan ((a.x2 - a.x1) / (a.y2 - a.y1 + reps15)) -
      Real.arctan ((b.x2 - b.x1) / (b.y2 - b.y1 + reps15))) ^ 2 + reps15)

/-- `alpha = v / ((1 - iou) + v)`. -/
noncomputable def alphaOf (a b : RBox) : ℝ :=
  vAspect a b / ((1 - IoU a b) + vAspect a b)

/-- `CIoU(bboxes_a, bboxes_b, batch_size) = diou - alpha * v`. -/
noncomputable def CIoU (a b : RBox) : ℝ := DIoU a b - alphaOf a b * vAspect a b

/-- Modelled from the spec: the aspect penalty as the spec's formula
writes it, `v = (4/π²)·(atan(w1/h1) − atan(w2/h2))²` with only the height
terms offset by `1e-15` — i.e. without the extra `1e-15` inside the
square's parenthesis. Used solely to compare the spec's claimed `CIoU`
decomposition against the source's. -/
noncomputable def vSpecFormula (a b : RBox) : ℝ :=
  4 / Real.pi ^ 2 *
    (Real.arctan ((a.x2 - a.x1) / (a.y2 - a.y1 + reps15)) -
     Real.arctan ((b.x2 - b.x1) / (b.y2 - b.y1 + reps15))) ^ 2

/-- Modelled from the spec: `CIoU = DIoU − α·v` with `v = vSpecFormula`
and `α = v/((1−iou)+v)`, the decomposition claimed by the spec. -/
noncomputable def CIoU_specFormula (a b : RBox) : ℝ :=
  DIoU a b - vSpecFormula a b / ((1 - IoU a b) + vSpecFormula a b) * vSpecFormula a b

/-! ## Forward-mode dual numbers mirroring torch autograd

To settle whether `CIoU` stops the gradient of the IoU feeding `alpha`,
the same computation is replayed on dual numbers `(val, der)`, one
primitive per torch operation, with each primitive's `der` rule the
derivative rule torch autograd uses (for `max`/`min` the gradient is
routed to the selected operand, ties to the first; comparison results are
constants). A `detach` stops the derivative. Differentiating along one
scalar input direction this way computes the same total derivative as
torch's reverse mode. -/

/-- A dual number: value and derivative along the chosen input direction. -/
structure Dual where
  val : ℝ
  der : ℝ

/-- A scalar constant (no gradient). -/
noncomputable def dConst (c : ℝ) : Dual := ⟨c, 0⟩

/-- Addition. -/
noncomputable def dAdd (u v : Dual) : Dual := ⟨u.val + v.val, u.der + v.der⟩

/-- Subtraction. -/
noncomputable def dSub (u v : Dual) : Dual := ⟨u.val - v.val, u.der - v.der⟩

/-- Multiplication (product rule). -/
noncomputable def dMul (u v : Dual) : Dual :=
  ⟨u.val * v.val, u.der * v.val + u.val * v.der⟩

/-- Division (quotient rule). -/
noncomputable def dDiv (u v : Dual) : Dual :=
  ⟨u.val / v.val, (u.der * v.val - u.val * v.der) / v.val ^ 2⟩

/-- `torch.max`: gradient routed to the selected (larger) operand, ties to
the first. -/
noncomputable def dMax (u v : Dual) : Dual := if u.val < v.val then v else u

/-- `torch.min`: gradient routed to the selected (smaller) operand, ties
to the first. -/
noncomputable def dMin (u v : Dual) : Dual := if v.val < u.val then v else u

/-- `torch.sqrt`. -/
noncomputable def dSqrt (u : Dual) : Dual :=
  ⟨Real.sqrt u.val, u.der / (2 * Real.sqrt u.val)⟩

/-- `torch.atan`. -/
noncomputable def dAtan (u : Dual) : Dual :=
  ⟨Real.arctan u.val, u.der / (1 + u.val ^ 2)⟩

/-- `(tl < br).type(...)`: a 0/1 indicator, constant a.e. (no gradient). -/
noncomputable def dLtInd (u v : Dual) : Dual := ⟨if u.val < v.val then 1 else 0, 0⟩

/-- `x ** 2` (torch `pow`): same value and derivative as `dMul x x`. -/
noncomputable def dSq (u : Dual) : Dual := dMul u u

/-- torch `.detach()` / `no_grad`: same value, excluded from
differentiation. -/
noncomputable def dDetach (u : Dual) : Dual := ⟨u.val, 0⟩

/-- A corner-form box of dual numbers. -/
structure DBox where
  x1 : Dual
  y1 : Dual
  x2 : Dual
  y2 : Dual

/-- `iou_score` on duals, op for op. -/
noncomputable def iou_scoreD (a b : DBox) : Dual :=
  let tlx := dMax a.x1 b.x1
  let tly := dMax a.y1 b.y1
  let brx := dMin a.x2 b.x2
  let bry := dMin a.y2 b.y2
  let area_a := dMul (dSub a.x2 a.x1) (dSub a.y2 a.y1)
  let area_b := dMul (dSub b.x2 b.x1) (dSub b.y2 b.y1)
  let en := dMul (dLtInd tlx brx) (dLtInd tly bry)
  let area_i := dMul (dMul (dSub brx tlx) (dSub bry tly)) en
  dDiv area_i (dAdd (dSub (dAdd area_a area_b) area_i) (dConst reps20))

/-- `IoU` on duals (the `view` is lane-wise identity). -/
noncomputable def IoUD (a b : DBox) : Dual := iou_scoreD a b

/-- `DIoU` on duals, op for op. -/
noncomputable def DIoUD (a b : DBox) : Dual :=
  let C := dSqrt (dAdd
    (dSq (dSub (dMax (dMax (dMax a.x1 a.x2) b.x1) b.x2)
               (dMin (dMin (dMin a.x1 a.x2) b.x1) b.x2)))
    (dSq (dSub (dMax (dMax (dMax a.y1 a.y2) b.y1) b.y2)
               (dMin (dMin (dMin a.y1 a.y2) b.y1) b.y2))))
  let points_1_x := dDiv (dAdd a.x1 a.x2) (dConst 2)
  let points_1_y := dDiv (dAdd a.y1 a.y2) (dConst 2)
  let points_2_x := dDiv (dAdd b.x1 b.x2) (dConst 2)
  let points_2_y := dDiv (dAdd b.y1 b.y2) (dConst 2)
  let D := dSqrt (dAdd (dSq (dSub points_2_x points_1_x))
                       (dSq (dSub points_2_y points_1_y)))
  let iou := IoUD a b
  let lens := dDiv (dSq D) (dAdd (dSq C) (dConst reps20))
  dSub iou lens

/-- The aspect penalty `v` of `CIoU` on duals, exactly as the source
computes it (extra `+1e-15` inside the square's parenthesis; `4/π²` is a
Python scalar constant). -/
noncomputable def vAspectD (a b : DBox) : Dual :=
  let delta_x_1 := dSub a.x2 a.x1
  let delta_x_2 := dSub b.x2 b.x1
  let delta_y_1 := dAdd (dSub a.y2 a.y1) (dConst reps15)
  let delta_y_2 := dAdd (dSub b.y2 b.y1) (dConst reps15)
  dMul (dConst (4 / Real.pi ^ 2))
    (dAdd (dSq (dSub (dAtan (dDiv delta_x_1 delta_y_1))
                     (dAtan (dDiv delta_x_2 delta_y_2)))) (dConst reps15))

/-- `CIoU` on duals exactly as the source computes it: the `iou` feeding
`alpha` is the plain differentiable value (no `.detach()` appears in the
source). -/
noncomputable def CIoUD (a b : DBox) : Dual :=
  let iou := IoUD a b
  let diou := DIoUD a b
  let v := vAspectD a b
  let alpha := dDiv v (dAdd (dSub (dConst 1) iou) v)
  dSub diou (dMul alpha v)

/-- Modelled from the spec: `CIoU` with the stop-gradient the spec claims
— the IoU value feeding `alpha` is detached from differentiation while
the `DIoU` term keeps its gradient. -/
noncomputable def CIoU_detachD (a b : DBox) : Dual :=
  let iou := IoUD a b
  let diou := DIoUD a b
  let v := vAspectD a b
  let alpha := dDiv v (dAdd (dSub (dConst 1) (dDetach iou)) v)
  dSub diou (dMul alpha v)

/-! ## Statement-level helpers and predicates -/

/-- The stride serving flattened anchor `index`: `strides[index //
anchor_number]`. -/
def strideAt (c : Cfg) (index : ℕ) : ℕ := c.strides.getD (sIdxOf c index) 0

/-- `grid_x = int(c_x / s)` at anchor `index`'s scale. -/
def gridXAt (c : Cfg) (lab : Label) (index : ℕ) : ℤ :=
  pyInt (cX c lab / (strideAt c index : ℚ))

/-- `grid_y = int(c_y / s)` at anchor `index`'s scale. -/
def gridYAt (c : Cfg) (lab : Label) (index : ℕ) : ℤ :=
  pyInt (cY c lab / (strideAt c index : ℚ))

/-- The grid height `h // s` of anchor `index`'s scale tensor. -/
def shapeHAt (c : Cfg) (index : ℕ) : ℕ := c.h / strideAt c index

/-- The grid width `w // s` of anchor `index`'s scale tensor. -/
def shapeWAt (c : Cfg) (index : ℕ) : ℕ := c.w / strideAt c index

/-- `j` is the first index of the maximum of `l` (the `np.argmax`
contract: deterministic first-wins tie-break). -/
def IsFirstMax (l : List ℚ) (j : ℕ) : Prop :=
  j < l.length ∧ (∀ k < l.length, l.getD k 0 ≤ l.getD j 0) ∧
    ∀ k < j, l.getD k 0 < l.getD j 0

/-- The label contract: corner coordinates normalized to `[0, 1]`. -/
def Normalized (lab : Label) : Prop :=
  (0 ≤ lab.xmin ∧ lab.xmax ≤ 1) ∧ (0 ≤ lab.ymin ∧ lab.ymax ≤ 1)

/-- The tri-state invariant on an (objectness, scale_weight) channel pair. -/
def TriOK (o sw : ℚ) : Prop :=
  (o = 1 ∧ 0 < sw) ∨ (o = -1 ∧ sw = -1) ∨ (o = 0 ∧ sw = 0)

/-- The tri-state invariant over a whole state, all cells at once. -/
def InvSt (st : GtState) : Prop :=
  ∀ s b gy gx ab, TriOK (readSt st s b gy gx ab 0) (readSt st s b gy gx ab 6)

/-- A non-degenerate corner-form box: positive width and height. -/
def Nondeg (a : RBox) : Prop := a.x1 < a.x2 ∧ a.y1 < a.y2

/-- Two corner-form boxes with no overlap area (disjoint, touching
allowed). -/
def DisjointBoxes (a b : RBox) : Prop :=
  min a.x2 b.x2 ≤ max a.x1 b.x1 ∨ min a.y2 b.y2 ≤ max a.y1 b.y1

/-! ## Concrete instances used by counterexamples and witnesses -/

/-- A stand-in for `np.log` on the never-inspected `tw`,`th` channels. -/
def log0 : ℚ → ℚ := fun _ => 0

/-- A 2×2-pixel ground truth at the bottom-right corner of a 10×10 image:
`[0.8, 0.8, 1.0, 1.0]`, class 0. -/
def labBR : Label := ⟨4/5, 4/5, 1, 1, 0⟩

/-- 10×10 input, single stride 4 (so the 2×2 grid cannot hold grid cell
(2,2)), one 20×20 anchor whose IoU with a 2×2 box is far below 1/2. -/
def c1cfg : Cfg := ⟨10, 10, [4], [(20, 20)], 1/2, log0⟩

/-- 10×10 input, strides [1, 4], anchors 2×2 (scale 0, the best) and
2.2×2.2 (scale 1, above threshold): the ignored write at scale 1 hits
grid cell (2,2) outside that scale's 2×2 extent. -/
def c2cfg : Cfg := ⟨10, 10, [1, 4], [(2, 2), (11/5, 11/5)], 1/2, log0⟩

/-- 10×10 input, strides [1, 4], anchors 2.2×2.2 (scale 0, above
threshold) and 2×2 (scale 1, the best): the best annotation at scale 1 is
silently dropped (grid (2,2) outside the 2×2 extent) while the ignored
write at scale 0 lands. -/
def c3cfg : Cfg := ⟨10, 10, [1, 4], [(11/5, 11/5), (2, 2)], 1/2, log0⟩

/-- The state `multi_gt_creator` produces on `c3cfg`/`labBR`: only the
ignored-anchor write at scale 0, grid (9,9). -/
def c3st : GtState := [ignBlock zeroTensor 0 9 9 0, zeroTensor]

/-- 3 anchors over 2 strides: `len(anchor_size)` not divisible by
`len(strides)`. -/
def c4cfg : Cfg := ⟨16, 16, [8, 4], [(1, 1), (2, 2), (3, 3)], 1/2, log0⟩

/-- 32×32 input, stride 32, one 16×16 anchor matching a 16×16 centered
ground truth. -/
def c5cfg : Cfg := ⟨32, 32, [32], [(16, 16)], 1/2, log0⟩

/-- A centered 16×16 ground truth `[0.25, 0.25, 0.75, 0.75]`, class 3. -/
def lab5 : Label := ⟨1/4, 1/4, 3/4, 3/4, 3⟩

/-- The state `multi_gt_creator` produces on `c5cfg`/`[[lab5]]`: one
positive write at scale 0, grid (0,0), anchor 0. -/
def c5st : GtState :=
  [posBlock zeroTensor 0 0 0 0 3 (1/2) (1/2) 0 0 (7/4) (1/4) (1/4) (3/4) (3/4)]

/-- Dual box `[0, 0, 2, 1]`, differentiated along its `x2` coordinate. -/
noncomputable def aD : DBox := ⟨⟨0, 0⟩, ⟨0, 0⟩, ⟨2, 1⟩, ⟨1, 0⟩⟩

/-- Dual box `[1, 0, 3, 1]` (constant in the differentiation direction);
overlaps `aD` and has the same aspect ratio. -/
noncomputable def bD : DBox := ⟨⟨1, 0⟩, ⟨0, 0⟩, ⟨3, 0⟩, ⟨1, 0⟩⟩

/-- The unit corner-form box `[0, 0, 1, 1]`. -/
noncomputable def rA : RBox := ⟨0, 0, 1, 1⟩

/-- The unit corner-form box `[2, 2, 3, 3]`, disjoint from `rA` along both
axes and of the same aspect ratio. -/
noncomputable def rB : RBox := ⟨2, 2, 3, 3⟩

/-- The corner-form box `[0, 0, 2, 2]`. -/
noncomputable def r8 : RBox := ⟨0, 0, 2, 2⟩

/-- A 4×4 center-form box at the origin (corners `[-2, -2, 2, 2]`). -/
def c10ab : CBox := ⟨0, 0, 4, 4⟩

/-- A 4×4 center-form box at `(5, 5)` (corners `[3, 3, 7, 7]`), disjoint
from `c10ab` along both axes. -/
def c10gt : CBox := ⟨5, 5, 4, 4⟩

/-! ## Basic read/write lemmas -/

lemma writeCell_read_ne {b gy gx ab b' gy' gx' ab' : ℕ}
    (h : ¬(b' = b ∧ gy' = gy ∧ gx' = gx ∧ ab' = ab))
    (t : ScaleTensor) (ch : ℕ) (v : ℚ) (ch' : ℕ) :
    writeCell t b gy gx ab ch v b' gy' gx' ab' ch' = t b' gy' gx' ab' ch' :=
  if_neg (fun hc => h ⟨hc.1, hc.2.1, hc.2.2.1, hc.2.2.2.1⟩)

lemma posBlock_read_ne {b gy gx ab b' gy' gx' ab' : ℕ}
    (h : ¬(b' = b ∧ gy' = gy ∧ gx' = gx ∧ ab' = ab))
    (t : ScaleTensor) (cls tx ty tw th wei xm ym xM yM : ℚ) (ch : ℕ) :
    posBlock t b gy gx ab cls tx ty tw th wei xm ym xM yM b' gy' gx' ab' ch =
      t b' gy' gx' ab' ch := by
  simp only [posBlock, writeCell_read_ne h]

lemma ignBlock_read_ne {b gy gx ab b' gy' gx' ab' : ℕ}
    (h : ¬(b' = b ∧ gy' = gy ∧ gx' = gx ∧ ab' = ab))
    (t : ScaleTensor) (ch : ℕ) :
    ignBlock t b gy gx ab b' gy' gx' ab' ch = t b' gy' gx' ab' ch := by
  simp only [ignBlock, writeCell_read_ne h]

lemma posBlock_read0 (t : ScaleTensor) (b gy gx ab : ℕ)
    (cls tx ty tw th wei xm ym xM yM : ℚ) (b' gy' gx' ab' : ℕ) :
    posBlock t b gy gx ab cls tx ty tw th wei xm ym xM yM b' gy' gx' ab' 0 =
      if b' = b ∧ gy' = gy ∧ gx' = gx ∧ ab' = ab then 1 else t b' gy' gx' ab' 0 := by
  by_cases hcell : b' = b ∧ gy' = gy ∧ gx' = gx ∧ ab' = ab
  · obtain ⟨hb, hy, hx, ha⟩ := hcell
    subst hb; subst hy; subst hx; subst ha
    simp [posBlock, writeCell]
  · rw [if_neg hcell, posBlock_read_ne hcell]

lemma posBlock_read6 (t : ScaleTensor) (b gy gx ab : ℕ)
    (cls tx ty tw th wei xm ym xM yM : ℚ) (b' gy' gx' ab' : ℕ) :
    posBlock t b gy gx ab cls tx ty tw th wei xm ym xM yM b' gy' gx' ab' 6 =
      if b' = b ∧ gy' = gy ∧ gx' = gx ∧ ab' = ab then wei else t b' gy' gx' ab' 6 := by
  by_cases hcell : b' = b ∧ gy' = gy ∧ gx' = gx ∧ ab' = ab
  · obtain ⟨hb, hy, hx, ha⟩ := hcell
    subst hb; subst hy; subst hx; subst ha
    simp [posBlock, writeCell]
  · rw [if_neg hcell, posBlock_read_ne hcell]

lemma ignBlock_read0 (t : ScaleTensor) (b gy gx ab : ℕ) (b' gy' gx' ab' : ℕ) :
    ignBlock t b gy gx ab b' gy' gx' ab' 0 =
      if b' = b ∧ gy' = gy ∧ gx' = gx ∧ ab' = ab then -1 else t b' gy' gx' ab' 0 := by
  by_cases hcell : b' = b ∧ gy' = gy ∧ gx' = gx ∧ ab' = ab
  · obtain ⟨hb, hy, hx, ha⟩ := hcell
    subst hb; subst hy; subst hx; subst ha
    simp [ignBlock, writeCell]
  · rw [if_neg hcell, ignBlock_read_ne hcell]

lemma ignBlock_read6 (t : ScaleTensor) (b gy gx ab : ℕ) (b' gy' gx' ab' : ℕ) :
    ignBlock t b gy gx ab b' gy' gx' ab' 6 =
      if b' = b ∧ gy' = gy ∧ gx' = gx ∧ ab' = ab then -1 else t b' gy' gx' ab' 6 := by
  by_cases hcell : b' = b ∧ gy' = gy ∧ gx' = gx ∧ ab' = ab
  · obtain ⟨hb, hy, hx, ha⟩ := hcell
    subst hb; subst hy; subst hx; subst ha
    simp [ignBlock, writeCell]
  · rw [if_neg hcell, ignBlock_read_ne hcell]

lemma readSt_set_self {st : GtState} {s : ℕ} (hs : s < st.length)
    (t : ScaleTensor) (b gy gx ab ch : ℕ) :
    readSt (st.set s t) s b gy gx ab ch = t b gy gx ab ch := by
  have hone : (st.set s t).get? s = some t := by
    rw [List.get?_eq_getElem?]
    exact List.getElem?_set_self hs
  show ((st.set s t).get? s).getD zeroTensor b gy gx ab ch = _
  rw [hone]
  rfl

lemma readSt_set_ne {s' s : ℕ} (h : s' ≠ s) (st : GtState)
    (t : ScaleTensor) (b gy gx ab ch : ℕ) :
    readSt (st.set s t) s' b gy gx ab ch = readSt st s' b gy gx ab ch := by
  show ((st.set s t).get? s').getD zeroTensor b gy gx ab ch =
    (st.get? s').getD zeroTensor b gy gx ab ch
  rw [List.get?_eq_getElem?, List.get?_eq_getElem?,
    List.getElem?_set_ne (fun hc => h hc.symm)]

lemma getD_initState (strides : List ℕ) (s : ℕ) :
    (initState strides).getD s zeroTensor = zeroTensor := by
  induction strides generalizing s with
  | nil => cases s <;> rfl
  | cons a l ih => cases s with
    | zero => rfl
    | succ n => exact ih n

lemma readSt_initState (strides : List ℕ) (s b gy gx ab ch : ℕ) :
    readSt (initState strides) s b gy gx ab ch = 0 := by
  show (initState strides).getD s zeroTensor b gy gx ab ch = 0
  rw [getD_initState]
  rfl

/-! ## Characterizations of the two assignment blocks -/

lemma posAssign_ok_inv {c : Cfg} {b : ℕ} {lab : Label} {index : ℕ} {st st' : GtState}
    (h : posAssign c b lab index st = Except.ok st') :
    c.anchorNumber ≠ 0 ∧
    ∃ s pbox, c.strides.get? (sIdxOf c index) = some s ∧ s ≠ 0 ∧
      (set_anchors c.anchor_size).get? index = some pbox ∧
      ((¬(pyInt (cY c lab / (s : ℚ)) < ((c.h / s : ℕ) : ℤ) ∧
          pyInt (cX c lab / (s : ℚ)) < ((c.w / s : ℕ) : ℤ)) ∧ st' = st) ∨
       (∃ gy gx,
          npIdx (pyInt (cY c lab / (s : ℚ))) (c.h / s) = some gy ∧
          npIdx (pyInt (cX c lab / (s : ℚ))) (c.w / s) = some gx ∧
          (pyInt (cY c lab / (s : ℚ)) < ((c.h / s : ℕ) : ℤ) ∧
           pyInt (cX c lab / (s : ℚ)) < ((c.w / s : ℕ) : ℤ)) ∧
          st' = st.set (sIdxOf c index)
            (posBlock (st.getD (sIdxOf c index) zeroTensor) b gy gx (abIdxOf c index)
              ((pyInt lab.cls : ℤ) : ℚ)
              (cX c lab / (s : ℚ) - ((pyInt (cX c lab / (s : ℚ)) : ℤ) : ℚ))
              (cY c lab / (s : ℚ) - ((pyInt (cY c lab / (s : ℚ)) : ℤ) : ℚ))
              (c.log (boxW c lab / pbox.w)) (c.log (boxH c lab / pbox.h))
              (weightOf c lab) lab.xmin lab.ymin lab.xmax lab.ymax))) := by
  simp only [posAssign] at h
  split at h
  · exact absurd h (by simp)
  next hA =>
    split at h
    next heqs => exact absurd h (by simp)
    next s heqs =>
      split at h
      next hs0 => exact absurd h (by simp)
      next hs0 =>
        split at h
        next heqp => exact absurd h (by simp)
        next pbox heqp =>
          refine ⟨hA, s, pbox, heqs, hs0, heqp, ?_⟩
          split at h
          next hin =>
            split at h
            next gy gx hny hnx =>
              right
              exact ⟨gy, gx, hny, hnx, hin, (by simpa using h.symm)⟩
            next hfail =>
              exact absurd h (by simp)
          next hout =>
            left
            exact ⟨hout, (by simpa using h.symm)⟩

lemma ignAssign_ok_inv {c : Cfg} {b : ℕ} {lab : Label} {index : ℕ} {st st' : GtState}
    (h : ignAssign c b lab index st = Except.ok st') :
    c.anchorNumber ≠ 0 ∧
    ∃ s gy gx, c.strides.get? (sIdxOf c index) = some s ∧ s ≠ 0 ∧
      npIdx (pyInt (cY c lab / (s : ℚ))) (c.h / s) = some gy ∧
      npIdx (pyInt (cX c lab / (s : ℚ))) (c.w / s) = some gx ∧
      st' = st.set (sIdxOf c index)
        (ignBlock (st.getD (sIdxOf c index) zeroTensor) b gy gx (abIdxOf c index)) := by
  simp only [ignAssign] at h
  split at h
  · exact absurd h (by simp)
  next hA =>
    split at h
    next heqs => exact absurd h (by simp)
    next s heqs =>
      split at h
      next hs0 => exact absurd h (by simp)
      next hs0 =>
        split at h
        next gy gx hny hnx =>
          exact ⟨hA, s, gy, gx, heqs, hs0, hny, hnx, (by simpa using h.symm)⟩
        next hfail =>
          exact absurd h (by simp)

lemma posAssign_length {c : Cfg} {b : ℕ} {lab : Label} {index : ℕ} {st st' : GtState}
    (h : posAssign c b lab index st = Except.ok st') : st'.length = st.length := by
  obtain ⟨_, s, pbox, _, _, _, hcase⟩ := posAssign_ok_inv h
  rcases hcase with ⟨_, rfl⟩ | ⟨gy, gx, _, _, _, rfl⟩
  · rfl
  · exact List.length_set st _ _

lemma ignAssign_length {c : Cfg} {b : ℕ} {lab : Label} {index : ℕ} {st st' : GtState}
    (h : ignAssign c b lab index st = Except.ok st') : st'.length = st.length := by
  obtain ⟨_, s, gy, gx, _, _, _, _, rfl⟩ := ignAssign_ok_inv h
  exact List.length_set st _ _

lemma posAssign_drop {c : Cfg} {b : ℕ} {lab : Label} {index : ℕ} (st : GtState)
    {s : ℕ} {pbox : CBox}
    (hA : c.anchorNumber ≠ 0)
    (hs : c.strides.get? (sIdxOf c index) = some s) (hs0 : s ≠ 0)
    (hp : (set_anchors c.anchor_size).get? index = some pbox)
    (hout : ¬(pyInt (cY c lab / (s : ℚ)) < ((c.h / s : ℕ) : ℤ) ∧
              pyInt (cX c lab / (s : ℚ)) < ((c.w / s : ℕ) : ℤ))) :
    posAssign c b lab index st = Except.ok st := by
  simp only [posAssign, hs, hp, hA, hs0, if_false, if_neg hout]

lemma ignAssign_err {c : Cfg} {b : ℕ} {lab : Label} {index : ℕ} (st : GtState)
    {s : ℕ}
    (hA : c.anchorNumber ≠ 0)
    (hs : c.strides.get? (sIdxOf c index) = some s) (hs0 : s ≠ 0)
    (hnone : npIdx (pyInt (cY c lab / (s : ℚ))) (c.h / s) = none) :
    ignAssign c b lab index st = Except.error "IndexError" := by
  simp only [ignAssign, hs, hnone, hA, hs0, if_false]

/-! ## Index decomposition and frame lemmas -/

lemma abIdxOf_eq_mod (c : Cfg) (j : ℕ) : abIdxOf c j = j % c.anchorNumber := by
  show j - j / c.anchorNumber * c.anchorNumber = j % c.anchorNumber
  rw [mul_comm]
  exact Nat.sub_eq_of_eq_add (Nat.mod_add_div j c.anchorNumber).symm

lemma idx_pair_inj {c : Cfg} {j j' : ℕ}
    (hs : sIdxOf c j = sIdxOf c j') (hab : abIdxOf c j = abIdxOf c j') : j = j' := by
  rw [abIdxOf_eq_mod, abIdxOf_eq_mod] at hab
  calc j = c.anchorNumber * (j / c.anchorNumber) + j % c.anchorNumber :=
        (Nat.div_add_mod j c.anchorNumber).symm
    _ = c.anchorNumber * (j' / c.anchorNumber) + j' % c.anchorNumber := by
        have hs' : j / c.anchorNumber = j' / c.anchorNumber := hs
        rw [hs', hab]
    _ = j' := Nat.div_add_mod j' c.anchorNumber

lemma lt_length_of_get?_some {α : Type} {l : List α} {n : ℕ} {a : α}
    (h : l.get? n = some a) : n < l.length := by
  by_contra hge
  rw [List.get?_eq_getElem?, List.getElem?_eq_none (Nat.le_of_not_lt hge)] at h
  exact Option.noConfusion h

lemma posAssign_read_frame {c : Cfg} {b : ℕ} {lab : Label} {index : ℕ}
    {st st' : GtState}
    (h : posAssign c b lab index st = Except.ok st')
    (hlen : st.length = c.strides.length)
    {s₀ b₀ ab₀ : ℕ}
    (hne : ¬(s₀ = sIdxOf c index ∧ b₀ = b ∧ ab₀ = abIdxOf c index))
    (gy₀ gx₀ ch : ℕ) :
    readSt st' s₀ b₀ gy₀ gx₀ ab₀ ch = readSt st s₀ b₀ gy₀ gx₀ ab₀ ch := by
  obtain ⟨hA, s, pbox, hs, hs0, hp, hcase⟩ := posAssign_ok_inv h
  rcases hcase with ⟨_, rfl⟩ | ⟨gy, gx, hny, hnx, hin, rfl⟩
  · rfl
  · by_cases hss : s₀ = sIdxOf c index
    · have hlt : sIdxOf c index < st.length := by
        rw [hlen]; exact lt_length_of_get?_some hs
      rw [hss, readSt_set_self hlt]
      refine posBlock_read_ne ?_ _ _ _ _ _ _ _ _ _ _ _ _
      rintro ⟨hbeq, _, _, habeq⟩
      exact hne ⟨hss, hbeq, habeq⟩
    · rw [readSt_set_ne hss]

lemma ignAssign_read_frame {c : Cfg} {b : ℕ} {lab : Label} {index : ℕ}
    {st st' : GtState}
    (h : ignAssign c b lab index st = Except.ok st')
    (hlen : st.length = c.strides.length)
    {s₀ b₀ ab₀ : ℕ}
    (hne : ¬(s₀ = sIdxOf c index ∧ b₀ = b ∧ ab₀ = abIdxOf c index))
    (gy₀ gx₀ ch : ℕ) :
    readSt st' s₀ b₀ gy₀ gx₀ ab₀ ch = readSt st s₀ b₀ gy₀ gx₀ ab₀ ch := by
  obtain ⟨_hA, s, gy, gx, hs, hs0, hny, hnx, rfl⟩ := ignAssign_ok_inv h
  by_cases hss : s₀ = sIdxOf c index
  · have hlt : sIdxOf c index < st.length := by
      rw [hlen]; exact lt_length_of_get?_some hs
    rw [hss, readSt_set_self hlt]
    refine ignBlock_read_ne ?_ _ _
    rintro ⟨hbeq, _, _, habeq⟩
    exact hne ⟨hss, hbeq, habeq⟩
  · rw [readSt_set_ne hss]

/-! ## The enumerate-loop lemmas -/

lemma igLoop_length {c : Cfg} {b : ℕ} {lab : Label} {best : ℕ} (l : List ℚ) :
    ∀ (i : ℕ) (st st' : GtState),
      igLoop c b lab best i l st = Except.ok st' → st'.length = st.length := by
  induction l with
  | nil =>
    intro i st st' h
    simp only [igLoop] at h
    cases h
    rfl
  | cons x rest ih =>
    intro i st st' h
    simp only [igLoop] at h
    split at h
    · split at h
      · split at h
        · exact absurd h (by simp)
        next st1 heq =>
          rw [ih _ _ _ h, posAssign_length heq]
      · split at h
        · exact absurd h (by simp)
        next st1 heq =>
          rw [ih _ _ _ h, ignAssign_length heq]
    · exact ih _ _ _ h

lemma igLoop_frame {c : Cfg} {b : ℕ} {lab : Label} {best : ℕ} (l : List ℚ) :
    ∀ (i : ℕ) (st st' : GtState),
      igLoop c b lab best i l st = Except.ok st' →
      st.length = c.strides.length →
      ∀ (s₀ b₀ gy₀ gx₀ ab₀ ch : ℕ),
        (∀ k, k < l.length → c.ignore_thresh < l.getD k 0 →
          ¬(s₀ = sIdxOf c (i + k) ∧ b₀ = b ∧ ab₀ = abIdxOf c (i + k))) →
        readSt st' s₀ b₀ gy₀ gx₀ ab₀ ch = readSt st s₀ b₀ gy₀ gx₀ ab₀ ch := by
  induction l with
  | nil =>
    intro i st st' h _ s₀ b₀ gy₀ gx₀ ab₀ ch _
    simp only [igLoop] at h
    cases h
    rfl
  | cons x rest ih =>
    intro i st st' h hlen s₀ b₀ gy₀ gx₀ ab₀ ch hfr
    have hfr0 : c.ignore_thresh < x →
        ¬(s₀ = sIdxOf c i ∧ b₀ = b ∧ ab₀ = abIdxOf c i) := by
      intro hx
      have := hfr 0 (by simp) (by simpa using hx)
      simpa using this
    have hfrS : ∀ k, k < rest.length → c.ignore_thresh < rest.getD k 0 →
        ¬(s₀ = sIdxOf c (i + 1 + k) ∧ b₀ = b ∧ ab₀ = abIdxOf c (i + 1 + k)) := by
      intro k hk hm
      have h' := hfr (k + 1) (by simpa using Nat.succ_lt_succ hk) (by simpa using hm)
      rw [show i + 1 + k = i + (k + 1) by omega]
      exact h'
    simp only [igLoop] at h
    split at h
    next hx =>
      split at h
      · split at h
        · exact absurd h (by simp)
        next st1 heq =>
          have hlen1 : st1.length = c.strides.length := by
            rw [posAssign_length heq, hlen]
          rw [ih _ _ _ h hlen1 _ _ _ _ _ _ hfrS,
            posAssign_read_frame heq hlen (hfr0 hx)]
      · split at h
        · exact absurd h (by simp)
        next st1 heq =>
          have hlen1 : st1.length = c.strides.length := by
            rw [ignAssign_length heq, hlen]
          rw [ih _ _ _ h hlen1 _ _ _ _ _ _ hfrS,
            ignAssign_read_frame heq hlen (hfr0 hx)]
    · exact ih _ _ _ h hlen _ _ _ _ _ _ hfrS

lemma npIdx_some_lt {g : ℤ} {n x : ℕ} (h : npIdx g n = some x) : g < (n : ℤ) := by
  unfold npIdx at h
  split at h
  next hc => exact hc.2
  · split at h
    next hc => exact lt_of_lt_of_le hc.2 (Int.ofNat_nonneg n)
    · exact Option.noConfusion h

lemma npIdx_of_bounds {g : ℤ} {n : ℕ} (h0 : 0 ≤ g) (h1 : g < (n : ℤ)) :
    npIdx g n = some g.toNat := by
  unfold npIdx
  rw [if_pos ⟨h0, h1⟩]

lemma npIdx_nonneg_inv {g : ℤ} {n x : ℕ} (h0 : 0 ≤ g) (h : npIdx g n = some x) :
    x = g.toNat ∧ g < (n : ℤ) := by
  unfold npIdx at h
  split at h
  next hc => exact ⟨((Option.some.injEq _ _).mp h).symm, hc.2⟩
  · split at h
    next hc => exact absurd hc.2 (not_lt.mpr h0)
    · exact Option.noConfusion h

lemma igLoop_read_best {c : Cfg} {b : ℕ} {lab : Label} {best : ℕ} (l : List ℚ) :
    ∀ (i : ℕ) (st st' : GtState),
      igLoop c b lab best i l st = Except.ok st' →
      st.length = c.strides.length →
      i ≤ best → best - i < l.length →
      c.ignore_thresh < l.getD (best - i) 0 →
      ∀ {s : ℕ}, c.strides.get? (sIdxOf c best) = some s →
      ∀ {gy gx : ℕ},
        npIdx (pyInt (cY c lab / (s : ℚ))) (c.h / s) = some gy →
        npIdx (pyInt (cX c lab / (s : ℚ))) (c.w / s) = some gx →
        readSt st' (sIdxOf c best) b gy gx (abIdxOf c best) 0 = 1 ∧
        readSt st' (sIdxOf c best) b gy gx (abIdxOf c best) 6 = weightOf c lab := by
  induction l with
  | nil =>
    intro i st st' _ _ _ hkl _ _ _ _ _ _ _
    simp at hkl
  | cons x rest ih =>
    intro i st st' h hlen hik hkl hm s hs gy gx hny hnx
    simp only [igLoop] at h
    by_cases hib : i = best
    · subst hib
      rw [Nat.sub_self, List.getD_cons_zero] at hm
      rw [if_pos hm, if_pos rfl] at h
      split at h
      · exact absurd h (by simp)
      next st1 heq =>
        obtain ⟨hA', s', pbox, hs', hs0', hp', hcase⟩ := posAssign_ok_inv heq
        have hss : s = s' := (Option.some.injEq _ _).mp (hs.symm.trans hs')
        subst hss
        rcases hcase with ⟨hout, rfl⟩ | ⟨gy', gx', hny', hnx', hin', rfl⟩
        · exact absurd ⟨npIdx_some_lt hny, npIdx_some_lt hnx⟩ hout
        · have hgy : gy = gy' := (Option.some.injEq _ _).mp (hny.symm.trans hny')
          have hgx : gx = gx' := (Option.some.injEq _ _).mp (hnx.symm.trans hnx')
          subst hgy; subst hgx
          have hlt : sIdxOf c i < st.length := by
            rw [hlen]; exact lt_length_of_get?_some hs
          have hlen1 : (st.set (sIdxOf c i)
              (posBlock (st.getD (sIdxOf c i) zeroTensor) b gy gx (abIdxOf c i)
                ((pyInt lab.cls : ℤ) : ℚ)
                (cX c lab / (s : ℚ) - ((pyInt (cX c lab / (s : ℚ)) : ℤ) : ℚ))
                (cY c lab / (s : ℚ) - ((pyInt (cY c lab / (s : ℚ)) : ℤ) : ℚ))
                (c.log (boxW c lab / pbox.w)) (c.log (boxH c lab / pbox.h))
                (weightOf c lab) lab.xmin lab.ymin lab.xmax lab.ymax)).length =
              c.strides.length := by
            rw [List.length_set]; exact hlen
          have hfr : ∀ k, k < rest.length → c.ignore_thresh < rest.getD k 0 →
              ¬(sIdxOf c i = sIdxOf c (i + 1 + k) ∧ b = b ∧
                abIdxOf c i = abIdxOf c (i + 1 + k)) := by
            rintro k _ _ ⟨h1, _, h3⟩
            have := idx_pair_inj h1 h3
            omega
          have hpre := igLoop_frame rest (i + 1) _ st' h hlen1
            (sIdxOf c i) b gy gx (abIdxOf c i) 0 hfr
          have hpre6 := igLoop_frame rest (i + 1) _ st' h hlen1
            (sIdxOf c i) b gy gx (abIdxOf c i) 6 hfr
          rw [hpre, hpre6, readSt_set_self hlt, readSt_set_self hlt,
            posBlock_read0, posBlock_read6, if_pos ⟨rfl, rfl, rfl, rfl⟩,
            if_pos ⟨rfl, rfl, rfl, rfl⟩]
          exact ⟨rfl, rfl⟩
    · have hlt : i < best := lt_of_le_of_ne hik hib
      have hshift : best - i = (best - (i + 1)) + 1 := by omega
      rw [hshift, List.getD_cons_succ] at hm
      have hkl' : best - (i + 1) < rest.length := by
        simp only [List.length_cons] at hkl
        omega
      rw [if_neg hib] at h
      split at h
      next hx =>
        split at h
        · exact absurd h (by simp)
        next st1 heq =>
          have hlen1 : st1.length = c.strides.length := by
            rw [ignAssign_length heq, hlen]
          exact ih (i + 1) st1 st' h hlen1 (by omega) hkl' hm hs hny hnx
      next hx =>
        exact ih (i + 1) st st' h hlen (by omega) hkl' hm hs hny hnx

lemma igLoop_read_ign {c : Cfg} {b : ℕ} {lab : Label} {best : ℕ} (l : List ℚ) :
    ∀ (i : ℕ) (st st' : GtState),
      igLoop c b lab best i l st = Except.ok st' →
      st.length = c.strides.length →
      ∀ (j₀ : ℕ), i ≤ j₀ → j₀ - i < l.length →
        c.ignore_thresh < l.getD (j₀ - i) 0 → j₀ ≠ best →
        ∃ s gy gx, c.strides.get? (sIdxOf c j₀) = some s ∧
          npIdx (pyInt (cY c lab / (s : ℚ))) (c.h / s) = some gy ∧
          npIdx (pyInt (cX c lab / (s : ℚ))) (c.w / s) = some gx ∧
          readSt st' (sIdxOf c j₀) b gy gx (abIdxOf c j₀) 0 = -1 ∧
          readSt st' (sIdxOf c j₀) b gy gx (abIdxOf c j₀) 6 = -1 := by
  induction l with
  | nil =>
    intro i st st' _ _ j₀ _ hkl _ _
    simp at hkl
  | cons x rest ih =>
    intro i st st' h hlen j₀ hij hkl hm hjb
    simp only [igLoop] at h
    by_cases hji : i = j₀
    · subst hji
      rw [Nat.sub_self, List.getD_cons_zero] at hm
      rw [if_pos hm, if_neg hjb] at h
      split at h
      · exact absurd h (by simp)
      next st1 heq =>
        obtain ⟨hA', s, gy, gx, hs, hs0, hny, hnx, rfl⟩ := ignAssign_ok_inv heq
        refine ⟨s, gy, gx, hs, hny, hnx, ?_⟩
        have hlt : sIdxOf c i < st.length := by
          rw [hlen]; exact lt_length_of_get?_some hs
        have hlen1 : (st.set (sIdxOf c i)
            (ignBlock (st.getD (sIdxOf c i) zeroTensor) b gy gx (abIdxOf c i))).length =
            c.strides.length := by
          rw [List.length_set]; exact hlen
        have hfr : ∀ k, k < rest.length → c.ignore_thresh < rest.getD k 0 →
            ¬(sIdxOf c i = sIdxOf c (i + 1 + k) ∧ b = b ∧
              abIdxOf c i = abIdxOf c (i + 1 + k)) := by
          rintro k _ _ ⟨h1, _, h3⟩
          have := idx_pair_inj h1 h3
          omega
        constructor
        · rw [igLoop_frame rest (i + 1) _ st' h hlen1 (sIdxOf c i) b gy gx (abIdxOf c i) 0 hfr,
            readSt_set_self hlt, ignBlock_read0, if_pos ⟨rfl, rfl, rfl, rfl⟩]
        · rw [igLoop_frame rest (i + 1) _ st' h hlen1 (sIdxOf c i) b gy gx (abIdxOf c i) 6 hfr,
            readSt_set_self hlt, ignBlock_read6, if_pos ⟨rfl, rfl, rfl, rfl⟩]
    · have hlt : i < j₀ := lt_of_le_of_ne hij hji
      rw [show j₀ - i = (j₀ - (i + 1)) + 1 by omega, List.getD_cons_succ] at hm
      have hkl' : j₀ - (i + 1) < rest.length := by
        simp only [List.length_cons] at hkl
        omega
      by_cases hib : i = best
      · rw [if_pos hib] at h
        split at h
        next hx =>
          split at h
          · exact absurd h (by simp)
          next st1 heq =>
            have hlen1 : st1.length = c.strides.length := by
              rw [posAssign_length heq, hlen]
            exact ih (i + 1) st1 st' h hlen1 j₀ (by omega) hkl' hm hjb
        next hx =>
          exact ih (i + 1) st st' h hlen j₀ (by omega) hkl' hm hjb
      · rw [if_neg hib] at h
        split at h
        next hx =>
          split at h
          · exact absurd h (by simp)
          next st1 heq =>
            have hlen1 : st1.length = c.strides.length := by
              rw [ignAssign_length heq, hlen]
            exact ih (i + 1) st1 st' h hlen1 j₀ (by omega) hkl' hm hjb
        next hx =>
          exact ih (i + 1) st st' h hlen j₀ (by omega) hkl' hm hjb

lemma igLoop_cases {c : Cfg} {b : ℕ} {lab : Label} {best : ℕ} (l : List ℚ) :
    ∀ (i : ℕ) (st st' : GtState),
      igLoop c b lab best i l st = Except.ok st' →
      st.length = c.strides.length →
      ∀ {s gy gx : ℕ},
        c.strides.get? (sIdxOf c best) = some s →
        npIdx (pyInt (cY c lab / (s : ℚ))) (c.h / s) = some gy →
        npIdx (pyInt (cX c lab / (s : ℚ))) (c.w / s) = some gx →
      ∀ (s₀ b₀ gy₀ gx₀ ab₀ : ℕ),
        readSt st' s₀ b₀ gy₀ gx₀ ab₀ 0 = readSt st s₀ b₀ gy₀ gx₀ ab₀ 0 ∨
        readSt st' s₀ b₀ gy₀ gx₀ ab₀ 0 = -1 ∨
        (s₀ = sIdxOf c best ∧ b₀ = b ∧ gy₀ = gy ∧ gx₀ = gx ∧ ab₀ = abIdxOf c best) := by
  induction l with
  | nil =>
    intro i st st' h _ s gy gx _ _ _ s₀ b₀ gy₀ gx₀ ab₀
    simp only [igLoop] at h
    cases h
    exact Or.inl rfl
  | cons x rest ih =>
    intro i st st' h hlen s gy gx hs hny hnx s₀ b₀ gy₀ gx₀ ab₀
    simp only [igLoop] at h
    by_cases hx : c.ignore_thresh < x
    · by_cases hib : i = best
      · rw [if_pos hx, if_pos hib] at h
        split at h
        · exact absurd h (by simp)
        next st1 heq =>
          have hlen1 : st1.length = c.strides.length := by
            rw [posAssign_length heq, hlen]
          rcases ih (i + 1) st1 st' h hlen1 hs hny hnx s₀ b₀ gy₀ gx₀ ab₀ with
            h1 | h1 | h1
          · obtain ⟨hA', s', pbox, hs', hs0', hp', hcase⟩ := posAssign_ok_inv heq
            have hseq : c.strides.get? (sIdxOf c best) = some s' := by
              rw [← hib]; exact hs'
            have hss : s = s' := (Option.some.injEq _ _).mp (hs.symm.trans hseq)
            subst hss
            rcases hcase with ⟨hout, rfl⟩ | ⟨gy', gx', hny', hnx', hin', rfl⟩
            · exact Or.inl h1
            · have hgy : gy = gy' := (Option.some.injEq _ _).mp (hny.symm.trans hny')
              have hgx : gx = gx' := (Option.some.injEq _ _).mp (hnx.symm.trans hnx')
              subst hgy; subst hgx
              by_cases hss₀ : s₀ = sIdxOf c i
              · have hlt : sIdxOf c i < st.length := by
                  rw [hlen]; exact lt_length_of_get?_some hs'
                by_cases hcell : b₀ = b ∧ gy₀ = gy ∧ gx₀ = gx ∧ ab₀ = abIdxOf c i
                · exact Or.inr (Or.inr
                    ⟨hss₀.trans (by rw [hib]), hcell.1, hcell.2.1, hcell.2.2.1,
                      hcell.2.2.2.trans (by rw [hib])⟩)
                · refine Or.inl (h1.trans ?_)
                  rw [hss₀, readSt_set_self hlt, posBlock_read0, if_neg hcell]
                  rfl
              · refine Or.inl (h1.trans ?_)
                rw [readSt_set_ne hss₀]
          · exact Or.inr (Or.inl h1)
          · exact Or.inr (Or.inr h1)
      · rw [if_pos hx, if_neg hib] at h
        split at h
        · exact absurd h (by simp)
        next st1 heq =>
          have hlen1 : st1.length = c.strides.length := by
            rw [ignAssign_length heq, hlen]
          rcases ih (i + 1) st1 st' h hlen1 hs hny hnx s₀ b₀ gy₀ gx₀ ab₀ with
            h1 | h1 | h1
          · obtain ⟨hA', s', gy', gx', hs', hs0', hny', hnx', rfl⟩ := ignAssign_ok_inv heq
            by_cases hss₀ : s₀ = sIdxOf c i
            · have hlt : sIdxOf c i < st.length := by
                rw [hlen]; exact lt_length_of_get?_some hs'
              by_cases hcell : b₀ = b ∧ gy₀ = gy' ∧ gx₀ = gx' ∧ ab₀ = abIdxOf c i
              · refine Or.inr (Or.inl ?_)
                rw [h1, hss₀, readSt_set_self hlt, ignBlock_read0, if_pos hcell]
              · refine Or.inl (h1.trans ?_)
                rw [hss₀, readSt_set_self hlt, ignBlock_read0, if_neg hcell]
                rfl
            · refine Or.inl (h1.trans ?_)
              rw [readSt_set_ne hss₀]
          · exact Or.inr (Or.inl h1)
          · exact Or.inr (Or.inr h1)
    · rw [if_neg hx] at h
      exact ih (i + 1) st st' h hlen hs hny hnx s₀ b₀ gy₀ gx₀ ab₀

/-! ## The `np.argmax` contract -/

lemma argmaxGo_isFirstMax (l : List ℚ) (ys : List ℚ) :
    ∀ (bv : ℚ) (bi i : ℕ),
      ys = l.drop i → bi < l.length → bv = l.getD bi 0 →
      (∀ p < i, l.getD p 0 ≤ bv) → (∀ p < bi, l.getD p 0 < bv) →
      IsFirstMax l (argmaxGo bv bi i ys) := by
  induction ys with
  | nil =>
    intro bv bi i hdrop hbi hbv hle hlt
    have hlen : l.length ≤ i := by
      by_contra hl
      have h0 : (l.drop i).length = l.length - i := List.length_drop i l
      rw [← hdrop] at h0
      simp only [List.length_nil] at h0
      omega
    simp only [argmaxGo]
    subst hbv
    exact ⟨hbi, fun k hk => hle k (lt_of_lt_of_le hk hlen), hlt⟩
  | cons y ys ih =>
    intro bv bi i hdrop hbi hbv hle hlt
    have hi : i < l.length := by
      by_contra hl
      rw [List.drop_eq_nil_of_le (Nat.le_of_not_lt hl)] at hdrop
      exact List.noConfusion hdrop
    have hy : l.getD i 0 = y := by
      have hg : l.get? i = some y := by
        have := List.getElem?_drop l i 0
        rw [← hdrop] at this
        simpa [List.get?_eq_getElem?] using this.symm
      show (l.get? i).getD 0 = y
      rw [hg]
      rfl
    have hys : ys = l.drop (i + 1) := by
      have h1 : (l.drop i).drop 1 = l.drop (i + 1) := List.drop_drop 1 i l
      rw [← hdrop] at h1
      simp only [List.drop_one, List.tail_cons] at h1
      rw [h1]
    simp only [argmaxGo]
    by_cases hcmp : bv < y
    · rw [if_pos hcmp]
      refine ih y i (i + 1) hys hi hy.symm ?_ ?_
      · intro p hp
        rcases Nat.lt_succ_iff_lt_or_eq.mp hp with hp' | hp'
        · exact le_of_lt (lt_of_le_of_lt (hle p hp') hcmp)
        · subst hp'; exact le_of_eq hy
      · intro p hp
        exact lt_of_le_of_lt (hle p hp) hcmp
    · rw [if_neg hcmp]
      refine ih bv bi (i + 1) hys hbi hbv ?_ hlt
      intro p hp
      rcases Nat.lt_succ_iff_lt_or_eq.mp hp with hp' | hp'
      · exact hle p hp'
      · subst hp'; rw [hy]; exact not_lt.mp hcmp

lemma npArgmax_isFirstMax {l : List ℚ} {j : ℕ} (h : npArgmax l = some j) :
    IsFirstMax l j := by
  cases l with
  | nil => exact Option.noConfusion h
  | cons x xs =>
    have hj : j = argmaxGo x 0 1 xs := by
      simp only [npArgmax] at h
      exact ((Option.some.injEq _ _).mp h).symm
    subst hj
    refine argmaxGo_isFirstMax (x :: xs) xs x 0 1 rfl (by simp) (by simp) ?_ ?_
    · intro p hp
      have hp0 : p = 0 := by omega
      subst hp0
      simp
    · intro p hp
      exact absurd hp (Nat.not_lt_zero p)

lemma npArgmax_some {l : List ℚ} (h : l ≠ []) : ∃ j, npArgmax l = some j := by
  cases l with
  | nil => exact absurd rfl h
  | cons x xs => exact ⟨argmaxGo x 0 1 xs, rfl⟩

/-! ## Bridging lemmas for `encodeLabel` and `multi_gt_creator` -/

lemma encodeLabel_skip {c : Cfg} {b : ℕ} {st : GtState} {lab : Label}
    (h : boxW c lab < 1 ∨ boxH c lab < 1) :
    encodeLabel c b st lab = Except.ok st := by
  simp only [encodeLabel, if_pos h]

lemma encodeLabel_branch1 {c : Cfg} {b : ℕ} {st : GtState} {lab : Label}
    (hbox : ¬(boxW c lab < 1 ∨ boxH c lab < 1))
    (hall : ∀ x ∈ iouListOf c lab, ¬ c.ignore_thresh < x)
    {index : ℕ} (harg : npArgmax (iouListOf c lab) = some index) :
    encodeLabel c b st lab = posAssign c b lab index st := by
  simp only [encodeLabel, if_neg hbox, if_pos hall, harg]

lemma encodeLabel_branch2 {c : Cfg} {b : ℕ} {st : GtState} {lab : Label}
    (hbox : ¬(boxW c lab < 1 ∨ boxH c lab < 1))
    (hnall : ¬ ∀ x ∈ iouListOf c lab, ¬ c.ignore_thresh < x)
    {best : ℕ} (harg : npArgmax (iouListOf c lab) = some best) :
    encodeLabel c b st lab = igLoop c b lab best 0 (iouListOf c lab) st := by
  simp only [encodeLabel, if_neg hbox, if_neg hnall, harg]

lemma encodeLabel_length {c : Cfg} {b : ℕ} {st st' : GtState} {lab : Label}
    (h : encodeLabel c b st lab = Except.ok st') : st'.length = st.length := by
  simp only [encodeLabel] at h
  split at h
  · cases h; rfl
  · split at h
    · split at h
      · exact absurd h (by simp)
      · exact posAssign_length h
    · split at h
      · exact absurd h (by simp)
      · exact igLoop_length _ _ _ _ h

lemma labelLoop_length {c : Cfg} {b : ℕ} (ll : List Label) :
    ∀ (st st' : GtState), labelLoop c b ll st = Except.ok st' →
      st'.length = st.length := by
  induction ll with
  | nil =>
    intro st st' h
    simp only [labelLoop] at h
    cases h; rfl
  | cons lab rest ih =>
    intro st st' h
    simp only [labelLoop] at h
    split at h
    · exact absurd h (by simp)
    next st1 henc =>
      rw [ih _ _ h, encodeLabel_length henc]

lemma batchLoop_length {c : Cfg} (lls : List (List Label)) :
    ∀ (bi : ℕ) (st st' : GtState), batchLoop c bi lls st = Except.ok st' →
      st'.length = st.length := by
  induction lls with
  | nil =>
    intro bi st st' h
    simp only [batchLoop] at h
    cases h; rfl
  | cons ll rest ih =>
    intro bi st st' h
    simp only [batchLoop] at h
    split at h
    · exact absurd h (by simp)
    next st1 hll =>
      rw [ih _ _ _ h, labelLoop_length _ _ _ hll]

lemma multi_length {c : Cfg} {lls : List (List Label)} {st : GtState}
    (h : multi_gt_creator c lls = Except.ok st) :
    st.length = c.strides.length := by
  simp only [multi_gt_creator] at h
  split at h
  · exact absurd h (by simp)
  · split at h
    · exact absurd h (by simp)
    · rw [batchLoop_length _ _ _ _ h]
      exact List.length_map _ _

/-- A run that returns normally passed the setup allocations: no stride
is zero. -/
lemma multi_ok_notmem {c : Cfg} {lls : List (List Label)} {st : GtState}
    (h : multi_gt_creator c lls = Except.ok st) : 0 ∉ c.strides := by
  simp only [multi_gt_creator] at h
  split at h
  · exact absurd h (by simp)
  · split at h
    · exact absurd h (by simp)
    · assumption

lemma multi_single {c : Cfg} (hstr : c.strides ≠ []) (h0 : 0 ∉ c.strides)
    (lab : Label) :
    multi_gt_creator c [[lab]] = encodeLabel c 0 (initState c.strides) lab := by
  have hne : c.strides.length ≠ 0 := fun hl => hstr (List.length_eq_zero.mp hl)
  simp only [multi_gt_creator, if_neg hne, if_neg h0, batchLoop, labelLoop]
  cases henc : encodeLabel c 0 (initState c.strides) lab with
  | error e => rfl
  | ok st1 => rfl

/-! ## Arithmetic consequences of normalized labels -/

lemma pyInt_nonneg {q : ℚ} (h : 0 ≤ q) : 0 ≤ pyInt q := by
  rw [pyInt, if_pos h]
  exact Int.floor_nonneg.mpr h

lemma box_dims_pos {c : Cfg} {lab : Label} (hbw : 1 ≤ boxW c lab) :
    (0 : ℚ) < (c.w : ℚ) ∧ lab.xmin < lab.xmax := by
  have hw0 : (0 : ℚ) < (c.w : ℚ) := by
    by_contra hle
    have hw : (c.w : ℚ) = 0 := le_antisymm (not_lt.mp hle) (by positivity)
    rw [boxW, hw, mul_zero] at hbw
    linarith
  refine ⟨hw0, ?_⟩
  by_contra hxx
  have hfac : lab.xmax - lab.xmin ≤ 0 := by linarith [not_lt.mp hxx]
  have : boxW c lab ≤ 0 := by
    rw [boxW]
    exact mul_nonpos_of_nonpos_of_nonneg hfac (le_of_lt hw0)
  linarith

lemma box_dims_pos_h {c : Cfg} {lab : Label} (hbh : 1 ≤ boxH c lab) :
    (0 : ℚ) < (c.h : ℚ) ∧ lab.ymin < lab.ymax := by
  have hh0 : (0 : ℚ) < (c.h : ℚ) := by
    by_contra hle
    have hh : (c.h : ℚ) = 0 := le_antisymm (not_lt.mp hle) (by positivity)
    rw [boxH, hh, mul_zero] at hbh
    linarith
  refine ⟨hh0, ?_⟩
  by_contra hyy
  have hfac : lab.ymax - lab.ymin ≤ 0 := by linarith [not_lt.mp hyy]
  have : boxH c lab ≤ 0 := by
    rw [boxH]
    exact mul_nonpos_of_nonpos_of_nonneg hfac (le_of_lt hh0)
  linarith

lemma weight_pos {c : Cfg} {lab : Label} (hn : Normalized lab)
    (hbw : 1 ≤ boxW c lab) (hbh : 1 ≤ boxH c lab) : 0 < weightOf c lab := by
  obtain ⟨hw0, hxlt⟩ := box_dims_pos hbw
  obtain ⟨hh0, hylt⟩ := box_dims_pos_h hbh
  have h1 : boxW c lab / (c.w : ℚ) = lab.xmax - lab.xmin := by
    rw [boxW]
    field_simp
  have h2 : boxH c lab / (c.h : ℚ) = lab.ymax - lab.ymin := by
    rw [boxH]
    field_simp
  rw [weightOf, h1, h2]
  have hx1 : lab.xmax - lab.xmin ≤ 1 := by
    obtain ⟨⟨ha, hb⟩, _⟩ := hn
    linarith
  have hy1 : lab.ymax - lab.ymin ≤ 1 := by
    obtain ⟨_, ⟨ha, hb⟩⟩ := hn
    linarith
  nlinarith [sub_pos.mpr hxlt, sub_pos.mpr hylt]

lemma grids_nonneg {c : Cfg} {lab : Label} (hn : Normalized lab)
    (hbw : 1 ≤ boxW c lab) (hbh : 1 ≤ boxH c lab) (s : ℕ) :
    0 ≤ pyInt (cY c lab / (s : ℚ)) ∧ 0 ≤ pyInt (cX c lab / (s : ℚ)) := by
  obtain ⟨hw0, hxlt⟩ := box_dims_pos hbw
  obtain ⟨hh0, hylt⟩ := box_dims_pos_h hbh
  have hcy : 0 ≤ cY c lab := by
    rw [cY]
    have : 0 ≤ lab.ymax + lab.ymin := by
      have := hn.2.1
      linarith
    positivity
  have hcx : 0 ≤ cX c lab := by
    rw [cX]
    have : 0 ≤ lab.xmax + lab.xmin := by
      have := hn.1.1
      linarith
    positivity
  constructor
  · exact pyInt_nonneg (div_nonneg hcy (by positivity))
  · exact pyInt_nonneg (div_nonneg hcx (by positivity))

/-! ## The flattened (reshaped + concatenated) output -/

lemma flattenScales_zero (h w A : ℕ) (ps : List (ℕ × ScaleTensor))
    (hz : ∀ p ∈ ps, ∀ b gy gx ab ch, p.2 b gy gx ab ch = 0) :
    ∀ b row ch, flattenScales h w A ps b row ch = 0 := by
  induction ps with
  | nil => intro b row ch; rfl
  | cons p rest ih =>
    intro b row ch
    obtain ⟨s, t⟩ := p
    simp only [flattenScales]
    split
    · exact hz (s, t) (by simp) b _ _ _ ch
    · exact ih (fun q hq => hz q (by simp [hq])) b _ ch

lemma flattenScales_ne (h w A ch : ℕ) (v : ℚ) (hv : v ≠ 0)
    (ps : List (ℕ × ScaleTensor))
    (hnz : ∀ p ∈ ps, ∀ b gy gx ab, p.2 b gy gx ab ch ≠ v) :
    ∀ b row, flattenScales h w A ps b row ch ≠ v := by
  induction ps with
  | nil => intro b row; exact fun hc => hv hc.symm
  | cons p rest ih =>
    intro b row
    obtain ⟨s, t⟩ := p
    simp only [flattenScales]
    split
    · exact hnz (s, t) (by simp) b _ _ _
    · exact ih (fun q hq => hnz q (by simp [hq])) b _

lemma flattenScales_TriOK (h w A : ℕ) (ps : List (ℕ × ScaleTensor))
    (ht : ∀ p ∈ ps, ∀ b gy gx ab, TriOK (p.2 b gy gx ab 0) (p.2 b gy gx ab 6)) :
    ∀ b row, TriOK (flattenScales h w A ps b row 0)
      (flattenScales h w A ps b row 6) := by
  induction ps with
  | nil =>
    intro b row
    exact Or.inr (Or.inr ⟨rfl, rfl⟩)
  | cons p rest ih =>
    intro b row
    obtain ⟨s, t⟩ := p
    simp only [flattenScales]
    split
    · exact ht (s, t) (by simp) b _ _ _
    · exact ih (fun q hq => ht q (by simp [hq])) b _

lemma flattenScales_exists_row (h w A : ℕ) (ps : List (ℕ × ScaleTensor)) :
    ∀ (sidx : ℕ) {s : ℕ} {t : ScaleTensor}, ps.get? sidx = some (s, t) →
    ∀ {gy gx ab : ℕ}, gy < h / s → gx < w / s → ab < A → ∀ (b ch : ℕ),
    ∃ row, flattenScales h w A ps b row ch = t b gy gx ab ch := by
  induction ps with
  | nil => intro sidx s t hget; exact absurd hget (by simp)
  | cons p rest ih =>
    intro sidx s t hget gy gx ab hgy hgx hab b ch
    cases sidx with
    | zero =>
      have hp : p = (s, t) := by simpa using hget
      subst hp
      have hA0 : 0 < A := Nat.pos_of_ne_zero (fun h0 => by omega)
      have hws : 0 < w / s := Nat.pos_of_ne_zero (fun h0 => by omega)
      have hwsA : 0 < w / s * A := Nat.mul_pos hws hA0
      refine ⟨gy * (w / s * A) + (gx * A + ab), ?_⟩
      have hr : gx * A + ab < w / s * A := by
        calc gx * A + ab < gx * A + A := by omega
          _ = (gx + 1) * A := by ring
          _ ≤ w / s * A := Nat.mul_le_mul_right A hgx
      have hlt : gy * (w / s * A) + (gx * A + ab) < h / s * (w / s) * A := by
        calc gy * (w / s * A) + (gx * A + ab) < gy * (w / s * A) + w / s * A := by omega
          _ = (gy + 1) * (w / s * A) := by ring
          _ ≤ h / s * (w / s * A) := Nat.mul_le_mul_right _ hgy
          _ = h / s * (w / s) * A := by ring
      simp only [flattenScales]
      rw [if_pos hlt]
      have hdiv : (gy * (w / s * A) + (gx * A + ab)) / (w / s * A) = gy := by
        rw [mul_comm gy (w / s * A), Nat.mul_add_div hwsA,
          Nat.div_eq_of_lt hr, Nat.add_zero]
      have hmod : (gy * (w / s * A) + (gx * A + ab)) % (w / s * A) = gx * A + ab := by
        rw [mul_comm gy (w / s * A), Nat.mul_add_mod, Nat.mod_eq_of_lt hr]
      have hdiv2 : (gx * A + ab) / A = gx := by
        rw [mul_comm gx A, Nat.mul_add_div hA0, Nat.div_eq_of_lt hab, Nat.add_zero]
      have hmod2 : (gx * A + ab) % A = ab := by
        rw [mul_comm gx A, Nat.mul_add_mod, Nat.mod_eq_of_lt hab]
      rw [hdiv, hmod, hdiv2, hmod2]
    | succ n =>
      obtain ⟨sp, tp⟩ := p
      obtain ⟨row, hrow⟩ := ih n (by simpa using hget) hgy hgx hab b ch
      refine ⟨h / sp * (w / sp) * A + row, ?_⟩
      simp only [flattenScales]
      rw [if_neg (by omega), Nat.add_sub_cancel_left]
      exact hrow

/-! ## The tri-state invariant is preserved by the encoder -/

lemma TriOK_mask {o sw : ℚ} (h : TriOK o sw) : 0 < sw ↔ o = 1 := by
  rcases h with ⟨h1, h2⟩ | ⟨h1, h2⟩ | ⟨h1, h2⟩ <;> subst h1 <;>
    constructor <;> intro hx
  · rfl
  · exact h2
  · rw [h2] at hx; norm_num at hx
  · norm_num at hx
  · rw [h2] at hx; norm_num at hx
  · norm_num at hx

lemma InvSt_init (strides : List ℕ) : InvSt (initState strides) := by
  intro s b gy gx ab
  rw [readSt_initState, readSt_initState]
  exact Or.inr (Or.inr ⟨rfl, rfl⟩)

lemma posAssign_inv {c : Cfg} {b : ℕ} {lab : Label} {index : ℕ} {st st' : GtState}
    (hw : 0 < weightOf c lab)
    (hlen : st.length = c.strides.length) (hinv : InvSt st)
    (h : posAssign c b lab index st = Except.ok st') : InvSt st' := by
  obtain ⟨hA, s, pbox, hs, hs0, hp, hcase⟩ := posAssign_ok_inv h
  rcases hcase with ⟨_, rfl⟩ | ⟨gy, gx, hny, hnx, hin, rfl⟩
  · exact hinv
  · intro s₀ b₀ gy₀ gx₀ ab₀
    by_cases hss : s₀ = sIdxOf c index
    · have hlt : sIdxOf c index < st.length := by
        rw [hlen]; exact lt_length_of_get?_some hs
      rw [hss, readSt_set_self hlt, readSt_set_self hlt, posBlock_read0,
        posBlock_read6]
      by_cases hcell : b₀ = b ∧ gy₀ = gy ∧ gx₀ = gx ∧ ab₀ = abIdxOf c index
      · rw [if_pos hcell, if_pos hcell]
        exact Or.inl ⟨rfl, hw⟩
      · rw [if_neg hcell, if_neg hcell]
        exact hinv (sIdxOf c index) b₀ gy₀ gx₀ ab₀
    · rw [readSt_set_ne hss, readSt_set_ne hss]
      exact hinv s₀ b₀ gy₀ gx₀ ab₀

lemma ignAssign_inv {c : Cfg} {b : ℕ} {lab : Label} {index : ℕ} {st st' : GtState}
    (hlen : st.length = c.strides.length) (hinv : InvSt st)
    (h : ignAssign c b lab index st = Except.ok st') : InvSt st' := by
  obtain ⟨hA, s, gy, gx, hs, hs0, hny, hnx, rfl⟩ := ignAssign_ok_inv h
  intro s₀ b₀ gy₀ gx₀ ab₀
  by_cases hss : s₀ = sIdxOf c index
  · have hlt : sIdxOf c index < st.length := by
      rw [hlen]; exact lt_length_of_get?_some hs
    rw [hss, readSt_set_self hlt, readSt_set_self hlt, ignBlock_read0,
      ignBlock_read6]
    by_cases hcell : b₀ = b ∧ gy₀ = gy ∧ gx₀ = gx ∧ ab₀ = abIdxOf c index
    · rw [if_pos hcell, if_pos hcell]
      exact Or.inr (Or.inl ⟨rfl, rfl⟩)
    · rw [if_neg hcell, if_neg hcell]
      exact hinv (sIdxOf c index) b₀ gy₀ gx₀ ab₀
  · rw [readSt_set_ne hss, readSt_set_ne hss]
    exact hinv s₀ b₀ gy₀ gx₀ ab₀

lemma igLoop_inv {c : Cfg} {b : ℕ} {lab : Label} {best : ℕ}
    (hw : 0 < weightOf c lab) (l : List ℚ) :
    ∀ (i : ℕ) (st st' : GtState),
      igLoop c b lab best i l st = Except.ok st' →
      st.length = c.strides.length → InvSt st → InvSt st' := by
  induction l with
  | nil =>
    intro i st st' h _ hinv
    simp only [igLoop] at h
    cases h
    exact hinv
  | cons x rest ih =>
    intro i st st' h hlen hinv
    simp only [igLoop] at h
    split at h
    · split at h
      · split at h
        · exact absurd h (by simp)
        next st1 heq =>
          exact ih _ _ _ h (by rw [posAssign_length heq, hlen])
            (posAssign_inv hw hlen hinv heq)
      · split at h
        · exact absurd h (by simp)
        next st1 heq =>
          exact ih _ _ _ h (by rw [ignAssign_length heq, hlen])
            (ignAssign_inv hlen hinv heq)
    · exact ih _ _ _ h hlen hinv

lemma encodeLabel_inv {c : Cfg} {b : ℕ} {st st' : GtState} {lab : Label}
    (hn : Normalized lab)
    (hlen : st.length = c.strides.length) (hinv : InvSt st)
    (h : encodeLabel c b st lab = Except.ok st') : InvSt st' := by
  simp only [encodeLabel] at h
  split at h
  · cases h; exact hinv
  next hbox =>
    have hbw : 1 ≤ boxW c lab := not_lt.mp (not_or.mp hbox).1
    have hbh : 1 ≤ boxH c lab := not_lt.mp (not_or.mp hbox).2
    have hw := weight_pos hn hbw hbh
    split at h
    · split at h
      · exact absurd h (by simp)
      · exact posAssign_inv hw hlen hinv h
    · split at h
      · exact absurd h (by simp)
      · exact igLoop_inv hw _ _ _ _ h hlen hinv

lemma labelLoop_inv {c : Cfg} {b : ℕ} (ll : List Label)
    (hns : ∀ lab ∈ ll, Normalized lab) :
    ∀ (st st' : GtState), labelLoop c b ll st = Except.ok st' →
      st.length = c.strides.length → InvSt st → InvSt st' := by
  induction ll with
  | nil =>
    intro st st' h _ hinv
    simp only [labelLoop] at h
    cases h
    exact hinv
  | cons lab rest ih =>
    intro st st' h hlen hinv
    simp only [labelLoop] at h
    split at h
    · exact absurd h (by simp)
    next st1 henc =>
      exact ih (fun l hl => hns l (by simp [hl])) _ _ h
        (by rw [encodeLabel_length henc, hlen])
        (encodeLabel_inv (hns lab (by simp)) hlen hinv henc)

lemma batchLoop_inv {c : Cfg} (lls : List (List Label))
    (hns : ∀ ll ∈ lls, ∀ lab ∈ ll, Normalized lab) :
    ∀ (bi : ℕ) (st st' : GtState), batchLoop c bi lls st = Except.ok st' →
      st.length = c.strides.length → InvSt st → InvSt st' := by
  induction lls with
  | nil =>
    intro bi st st' h _ hinv
    simp only [batchLoop] at h
    cases h
    exact hinv
  | cons ll rest ih =>
    intro bi st st' h hlen hinv
    simp only [batchLoop] at h
    split at h
    · exact absurd h (by simp)
    next st1 hll =>
      exact ih (fun l hl => hns l (by simp [hl])) _ _ _ h
        (by rw [labelLoop_length _ _ _ hll, hlen])
        (labelLoop_inv _ (hns ll (by simp)) _ _ hll hlen hinv)

lemma multi_inv {c : Cfg} {lls : List (List Label)} {st : GtState}
    (hns : ∀ ll ∈ lls, ∀ lab ∈ ll, Normalized lab)
    (h : multi_gt_creator c lls = Except.ok st) : InvSt st := by
  simp only [multi_gt_creator] at h
  split at h
  · exact absurd h (by simp)
  · split at h
    · exact absurd h (by simp)
    · exact batchLoop_inv lls hns 0 _ _ h (List.length_map _ _) (InvSt_init _)

lemma posAssign_write {c : Cfg} {b : ℕ} {lab : Label} {index : ℕ} (st : GtState)
    {s : ℕ} {pbox : CBox} {gy gx : ℕ}
    (hA : c.anchorNumber ≠ 0)
    (hs : c.strides.get? (sIdxOf c index) = some s) (hs0 : s ≠ 0)
    (hp : (set_anchors c.anchor_size).get? index = some pbox)
    (hin : pyInt (cY c lab / (s : ℚ)) < ((c.h / s : ℕ) : ℤ) ∧
           pyInt (cX c lab / (s : ℚ)) < ((c.w / s : ℕ) : ℤ))
    (hny : npIdx (pyInt (cY c lab / (s : ℚ))) (c.h / s) = some gy)
    (hnx : npIdx (pyInt (cX c lab / (s : ℚ))) (c.w / s) = some gx) :
    posAssign c b lab index st = Except.ok (st.set (sIdxOf c index)
      (posBlock (st.getD (sIdxOf c index) zeroTensor) b gy gx (abIdxOf c index)
        ((pyInt lab.cls : ℤ) : ℚ)
        (cX c lab / (s : ℚ) - ((pyInt (cX c lab / (s : ℚ)) : ℤ) : ℚ))
        (cY c lab / (s : ℚ) - ((pyInt (cY c lab / (s : ℚ)) : ℤ) : ℚ))
        (c.log (boxW c lab / pbox.w)) (c.log (boxH c lab / pbox.h))
        (weightOf c lab) lab.xmin lab.ymin lab.xmax lab.ymax)) := by
  simp only [posAssign, hs, hp, hny, hnx, hA, hs0, if_false, if_pos hin]

lemma ignAssign_write {c : Cfg} {b : ℕ} {lab : Label} {index : ℕ} (st : GtState)
    {s : ℕ} {gy gx : ℕ}
    (hA : c.anchorNumber ≠ 0)
    (hs : c.strides.get? (sIdxOf c index) = some s) (hs0 : s ≠ 0)
    (hny : npIdx (pyInt (cY c lab / (s : ℚ))) (c.h / s) = some gy)
    (hnx : npIdx (pyInt (cX c lab / (s : ℚ))) (c.w / s) = some gx) :
    ignAssign c b lab index st = Except.ok (st.set (sIdxOf c index)
      (ignBlock (st.getD (sIdxOf c index) zeroTensor) b gy gx (abIdxOf c index))) := by
  simp only [ignAssign, hs, hny, hnx, hA, hs0, if_false]

/-! ## Concrete encoder runs -/

lemma c1run : multi_gt_creator c1cfg [[labBR]] = Except.ok (initState [4]) := by
  norm_num [multi_gt_creator, batchLoop, labelLoop, encodeLabel, iouListOf,
    compute_iou, computeIouOne, set_anchors, iW, iH, boxW, boxH, cX, cY,
    weightOf, npArgmax, argmaxGo, igLoop, posAssign, sIdxOf, abIdxOf,
    Cfg.anchorNumber, pyInt, npIdx, initState, c1cfg, labBR, log0, eps20]

lemma c2run : multi_gt_creator c2cfg [[labBR]] = Except.error "IndexError" := by
  norm_num [multi_gt_creator, batchLoop, labelLoop, encodeLabel, iouListOf,
    compute_iou, computeIouOne, set_anchors, iW, iH, boxW, boxH, cX, cY,
    weightOf, npArgmax, argmaxGo, igLoop, posAssign, ignAssign, sIdxOf, abIdxOf,
    Cfg.anchorNumber, pyInt, npIdx, initState, c2cfg, labBR, log0, eps20]

lemma c3run : multi_gt_creator c3cfg [[labBR]] = Except.ok c3st := by
  norm_num [multi_gt_creator, batchLoop, labelLoop, encodeLabel, iouListOf,
    compute_iou, computeIouOne, set_anchors, iW, iH, boxW, boxH, cX, cY,
    weightOf, npArgmax, argmaxGo, igLoop, posAssign, ignAssign, sIdxOf, abIdxOf,
    Cfg.anchorNumber, pyInt, npIdx, initState, c3cfg, labBR, log0, c3st, eps20,
    Int.toNat_ofNat]
  rfl

lemma c5run : multi_gt_creator c5cfg [[lab5]] = Except.ok c5st := by
  norm_num [multi_gt_creator, batchLoop, labelLoop, encodeLabel, iouListOf,
    compute_iou, computeIouOne, set_anchors, iW, iH, boxW, boxH, cX, cY,
    weightOf, npArgmax, argmaxGo, igLoop, posAssign, sIdxOf, abIdxOf,
    Cfg.anchorNumber, pyInt, npIdx, initState, c5cfg, lab5, log0, c5st, eps20]

/-! ## Claim C5 -/

/-- C5: every anchor entry of every target tensor `multi_gt_creator`
produces from normalized-`[0,1]` labels satisfies the tri-state invariant
(objectness 1 ⇒ scale_weight > 0; objectness -1 ⇒ scale_weight = -1;
objectness 0 ⇒ scale_weight = 0), both on the per-scale tensors and on
the flattened returned tensor; consequently the loss mask
`scale_weight > 0` selects exactly the positive anchors. -/
theorem C5_tristate_invariant (c : Cfg) (lls : List (List Label)) (st : GtState)
    (hn : ∀ ll ∈ lls, ∀ lab ∈ ll, Normalized lab)
    (hrun : multi_gt_creator c lls = Except.ok st) :
    (∀ s b gy gx ab,
      TriOK (readSt st s b gy gx ab 0) (readSt st s b gy gx ab 6) ∧
      (0 < readSt st s b gy gx ab 6 ↔ readSt st s b gy gx ab 0 = 1)) ∧
    (∀ b row,
      TriOK (flattenOut c st b row 0) (flattenOut c st b row 6) ∧
      (0 < flattenOut c st b row 6 ↔ flattenOut c st b row 0 = 1)) := by
  have hinv := multi_inv hn hrun
  constructor
  · intro s b gy gx ab
    exact ⟨hinv s b gy gx ab, TriOK_mask (hinv s b gy gx ab)⟩
  · have hmem : ∀ p ∈ c.strides.zip st, ∀ b gy gx ab,
        TriOK (p.2 b gy gx ab 0) (p.2 b gy gx ab 6) := by
      intro p hp b gy gx ab
      obtain ⟨s, t⟩ := p
      have ht : t ∈ st := (List.of_mem_zip hp).2
      obtain ⟨n, hn'⟩ := List.get?_of_mem ht
      have h0 : readSt st n b gy gx ab 0 = t b gy gx ab 0 := by
        show (st.get? n).getD zeroTensor b gy gx ab 0 = _
        rw [hn']
        rfl
      have h6 : readSt st n b gy gx ab 6 = t b gy gx ab 6 := by
        show (st.get? n).getD zeroTensor b gy gx ab 6 = _
        rw [hn']
        rfl
      have hc := hinv n b gy gx ab
      rw [h0, h6] at hc
      exact hc
    intro b row
    have ht := flattenScales_TriOK c.h c.w c.anchorNumber (c.strides.zip st)
      hmem b row
    exact ⟨ht, TriOK_mask ht⟩

/-- C5 witness: the invariant instantiated on a concrete encoded batch
(32×32 input, stride 32, one 16×16 anchor, one centered 16×16 ground
truth), read at the written cell. -/
theorem C5_witness :
    TriOK (readSt c5st 0 0 0 0 0 0) (readSt c5st 0 0 0 0 0 6) ∧
    (0 < readSt c5st 0 0 0 0 0 6 ↔ readSt c5st 0 0 0 0 0 0 = 1) := by
  have hn : ∀ ll ∈ [[lab5]], ∀ lab ∈ ll, Normalized lab := by
    rintro ll hll lab hlab
    simp only [List.mem_singleton] at hll
    subst hll
    simp only [List.mem_singleton] at hlab
    subst hlab
    exact ⟨⟨by norm_num [lab5], by norm_num [lab5]⟩,
      ⟨by norm_num [lab5], by norm_num [lab5]⟩⟩
  exact (C5_tristate_invariant c5cfg [[lab5]] c5st hn c5run).1 0 0 0 0 0

/-! ## Claim C1 -/

lemma strideAt_eq {c : Cfg} {index s : ℕ}
    (hs : c.strides.get? (sIdxOf c index) = some s) : strideAt c index = s := by
  show (c.strides.get? (sIdxOf c index)).getD 0 = s
  rw [hs]
  rfl

lemma strideAt_of_none {c : Cfg} {index : ℕ}
    (hs : c.strides.get? (sIdxOf c index) = none) : strideAt c index = 0 := by
  show (c.strides.get? (sIdxOf c index)).getD 0 = 0
  rw [hs]
  rfl

lemma not_skip {c : Cfg} {lab : Label} (hbw : 1 ≤ boxW c lab)
    (hbh : 1 ≤ boxH c lab) : ¬(boxW c lab < 1 ∨ boxH c lab < 1) := by
  rintro (h | h) <;> linarith

lemma best_masked {c : Cfg} {lab : Label} {best : ℕ}
    (harg : npArgmax (iouListOf c lab) = some best)
    (hmask : ∃ x ∈ iouListOf c lab, c.ignore_thresh < x) :
    c.ignore_thresh < (iouListOf c lab).getD best 0 := by
  obtain ⟨x, hx, hθ⟩ := hmask
  obtain ⟨hblen, hmax, _⟩ := npArgmax_isFirstMax harg
  obtain ⟨k, hk⟩ := List.get?_of_mem hx
  have hklen : k < (iouListOf c lab).length := lt_length_of_get?_some hk
  have hxk : (iouListOf c lab).getD k 0 = x := by
    show ((iouListOf c lab).get? k).getD 0 = x
    rw [hk]
    rfl
  have hmk := hmax k hklen
  rw [hxk] at hmk
  exact lt_of_lt_of_le hθ hmk

lemma strides_defined_of_inb {c : Cfg} {lab : Label} {index : ℕ}
    (hby : gridYAt c lab index < (shapeHAt c index : ℤ))
    (hg0 : 0 ≤ gridYAt c lab index) :
    ∃ s, c.strides.get? (sIdxOf c index) = some s := by
  cases hcase : c.strides.get? (sIdxOf c index) with
  | some s => exact ⟨s, rfl⟩
  | none =>
    exfalso
    have h0 := strideAt_of_none hcase
    simp only [shapeHAt, h0, Nat.div_zero, Nat.cast_zero] at hby
    exact absurd hby (not_lt.mpr hg0)

lemma read_best_of_encode {c : Cfg} {lab : Label} {st : GtState} {best s : ℕ}
    (hbox : ¬(boxW c lab < 1 ∨ boxH c lab < 1))
    (harg : npArgmax (iouListOf c lab) = some best)
    (hs : c.strides.get? (sIdxOf c best) = some s)
    (hgy0 : 0 ≤ pyInt (cY c lab / (s : ℚ))) (hgx0 : 0 ≤ pyInt (cX c lab / (s : ℚ)))
    (hby : pyInt (cY c lab / (s : ℚ)) < ((c.h / s : ℕ) : ℤ))
    (hbx : pyInt (cX c lab / (s : ℚ)) < ((c.w / s : ℕ) : ℤ))
    (hrun : encodeLabel c 0 (initState c.strides) lab = Except.ok st) :
    readSt st (sIdxOf c best) 0 (pyInt (cY c lab / (s : ℚ))).toNat
      (pyInt (cX c lab / (s : ℚ))).toNat (abIdxOf c best) 0 = 1 ∧
    readSt st (sIdxOf c best) 0 (pyInt (cY c lab / (s : ℚ))).toNat
      (pyInt (cX c lab / (s : ℚ))).toNat (abIdxOf c best) 6 = weightOf c lab := by
  have hny := npIdx_of_bounds hgy0 hby
  have hnx := npIdx_of_bounds hgx0 hbx
  have hlen : (initState c.strides).length = c.strides.length := List.length_map _ _
  by_cases hall : ∀ x ∈ iouListOf c lab, ¬ c.ignore_thresh < x
  · rw [encodeLabel_branch1 hbox hall harg] at hrun
    obtain ⟨hA', s', pbox, hs', hs0', hp', hcase⟩ := posAssign_ok_inv hrun
    have hss : s = s' := (Option.some.injEq _ _).mp (hs.symm.trans hs')
    subst hss
    rcases hcase with ⟨hout, rfl⟩ | ⟨gy, gx, hny', hnx', hin', rfl⟩
    · exact absurd ⟨hby, hbx⟩ hout
    · have hgy : (pyInt (cY c lab / (s : ℚ))).toNat = gy :=
        (Option.some.injEq _ _).mp (hny.symm.trans hny')
      have hgx : (pyInt (cX c lab / (s : ℚ))).toNat = gx :=
        (Option.some.injEq _ _).mp (hnx.symm.trans hnx')
      have hlt : sIdxOf c best < (initState c.strides).length := by
        rw [hlen]
        exact lt_length_of_get?_some hs
      rw [hgy, hgx, readSt_set_self hlt, readSt_set_self hlt, posBlock_read0,
        posBlock_read6, if_pos ⟨rfl, rfl, rfl, rfl⟩, if_pos ⟨rfl, rfl, rfl, rfl⟩]
      exact ⟨rfl, rfl⟩
  · rw [encodeLabel_branch2 hbox hall harg] at hrun
    push_neg at hall
    have hm := best_masked harg hall
    have hblen : best < (iouListOf c lab).length := (npArgmax_isFirstMax harg).1
    exact igLoop_read_best (iouListOf c lab) 0 _ st hrun hlen (Nat.zero_le _)
      (by rw [Nat.sub_zero]; exact hblen) (by rw [Nat.sub_zero]; exact hm)
      hs hny hnx

/-- C1 counterexample: a 2×2-pixel ground truth at the bottom-right of a
10×10 image, single stride 4 — the force-assigned (no candidate above
threshold) write targets grid cell (2,2) outside that scale's 2×2
extent and is silently dropped, so the returned tensor contains no
anchor entry with objectness 1 for this instance, refuting the
guarantee. -/
theorem C1_counterexample :
    1 ≤ boxW c1cfg labBR ∧ 1 ≤ boxH c1cfg labBR ∧
    multi_gt_creator c1cfg [[labBR]] = Except.ok (initState [4]) ∧
    ¬ ∃ b row, flattenOut c1cfg (initState [4]) b row 0 = 1 := by
  refine ⟨by norm_num [boxW, c1cfg, labBR], by norm_num [boxH, c1cfg, labBR],
    c1run, ?_⟩
  rintro ⟨b, row, hrow⟩
  have hz : ∀ p ∈ c1cfg.strides.zip (initState [4]), ∀ b' gy gx ab ch,
      p.2 b' gy gx ab ch = 0 := by
    intro p hp b' gy gx ab ch
    have hmem : p.2 ∈ initState [4] := (List.of_mem_zip hp).2
    simp only [initState, List.map, List.mem_singleton] at hmem
    rw [hmem]
    rfl
  have hval := flattenScales_zero c1cfg.h c1cfg.w c1cfg.anchorNumber
    (c1cfg.strides.zip (initState [4])) hz b row 0
  simp only [flattenOut] at hrow
  rw [hval] at hrow
  norm_num at hrow

/-- C1 (amended): for a single-instance batch with normalized
coordinates and a ≥1×1-pixel box, when `multi_gt_creator` returns without
error and the globally best (first-max) anchor's grid cell lies inside
its scale's extent, that anchor's entry in the result carries
objectness 1 — covering both the force-assignment branch (no candidate
above `ignore_thresh`) and the best-of-candidates branch — so the
returned tensor contains at least one positive entry for the instance.
(The claim's unconditional guarantee fails: the bounds check can drop
the one positive write, and a later instance's writes can overwrite it.) -/
theorem C1_amended (c : Cfg) (lab : Label) (st : GtState) (best : ℕ)
    (hstr : c.strides ≠ []) (hA : c.anchorNumber ≠ 0)
    (hn : Normalized lab) (hbw : 1 ≤ boxW c lab) (hbh : 1 ≤ boxH c lab)
    (harg : npArgmax (iouListOf c lab) = some best)
    (hrun : multi_gt_creator c [[lab]] = Except.ok st)
    (hby : gridYAt c lab best < (shapeHAt c best : ℤ))
    (hbx : gridXAt c lab best < (shapeWAt c best : ℤ)) :
    readSt st (sIdxOf c best) 0 (gridYAt c lab best).toNat
      (gridXAt c lab best).toNat (abIdxOf c best) 0 = 1 ∧
    ∃ row, flattenOut c st 0 row 0 = 1 := by
  rw [multi_single hstr (multi_ok_notmem hrun)] at hrun
  have hbox := not_skip hbw hbh
  have hg0 := grids_nonneg hn hbw hbh (strideAt c best)
  obtain ⟨s, hs⟩ := strides_defined_of_inb hby hg0.1
  have hsa : strideAt c best = s := strideAt_eq hs
  simp only [gridYAt, gridXAt, shapeHAt, shapeWAt, hsa] at hby hbx ⊢
  have hgy0 : 0 ≤ pyInt (cY c lab / (s : ℚ)) := (grids_nonneg hn hbw hbh s).1
  have hgx0 : 0 ≤ pyInt (cX c lab / (s : ℚ)) := (grids_nonneg hn hbw hbh s).2
  obtain ⟨h1, _⟩ := read_best_of_encode hbox harg hs hgy0 hgx0 hby hbx hrun
  refine ⟨h1, ?_⟩
  have hstlen : st.length = c.strides.length := by
    rw [encodeLabel_length hrun]
    exact List.length_map _ _
  have hslt : sIdxOf c best < c.strides.length := lt_length_of_get?_some hs
  have hslt' : sIdxOf c best < st.length := by rw [hstlen]; exact hslt
  have hget : st.get? (sIdxOf c best) = some (st.get ⟨sIdxOf c best, hslt'⟩) :=
    List.get?_eq_get hslt'
  have hzip : (c.strides.zip st).get? (sIdxOf c best) =
      some (s, st.get ⟨sIdxOf c best, hslt'⟩) := by
    rw [List.get?_eq_getElem?, List.getElem?_zip_eq_some]
    constructor
    · rw [← List.get?_eq_getElem?]; exact hs
    · rw [← List.get?_eq_getElem?]; exact hget
  have hgyb : (pyInt (cY c lab / (s : ℚ))).toNat < c.h / s := (Int.toNat_lt hgy0).mpr hby
  have hgxb : (pyInt (cX c lab / (s : ℚ))).toNat < c.w / s := (Int.toNat_lt hgx0).mpr hbx
  have habb : abIdxOf c best < c.anchorNumber := by
    rw [abIdxOf_eq_mod]
    exact Nat.mod_lt _ (Nat.pos_of_ne_zero hA)
  obtain ⟨row, hrow⟩ := flattenScales_exists_row c.h c.w c.anchorNumber
    (c.strides.zip st) (sIdxOf c best) hzip hgyb hgxb habb 0 0
  refine ⟨row, ?_⟩
  show flattenScales c.h c.w c.anchorNumber (c.strides.zip st) 0 row 0 = 1
  rw [hrow]
  have hread : readSt st (sIdxOf c best) 0 (pyInt (cY c lab / (s : ℚ))).toNat
      (pyInt (cX c lab / (s : ℚ))).toNat (abIdxOf c best) 0 =
      st.get ⟨sIdxOf c best, hslt'⟩ 0 (pyInt (cY c lab / (s : ℚ))).toNat
        (pyInt (cX c lab / (s : ℚ))).toNat (abIdxOf c best) 0 := by
    show (st.get? (sIdxOf c best)).getD zeroTensor 0 _ _ _ 0 = _
    rw [hget]
    rfl
  rw [← hread]
  exact h1

/-- C1 witness: the amended statement discharged on a concrete run
(32×32 input, stride 32, one 16×16 anchor, centered 16×16 ground truth):
the best anchor's cell holds objectness 1 and a positive row exists in
the flattened output. -/
theorem C1_witness :
    readSt c5st (sIdxOf c5cfg 0) 0 (gridYAt c5cfg lab5 0).toNat
      (gridXAt c5cfg lab5 0).toNat (abIdxOf c5cfg 0) 0 = 1 ∧
    ∃ row, flattenOut c5cfg c5st 0 row 0 = 1 := by
  refine C1_amended c5cfg lab5 c5st 0 (by simp [c5cfg]) (by norm_num [Cfg.anchorNumber, c5cfg])
    ⟨⟨by norm_num [lab5], by norm_num [lab5]⟩, ⟨by norm_num [lab5], by norm_num [lab5]⟩⟩
    (by norm_num [boxW, c5cfg, lab5]) (by norm_num [boxH, c5cfg, lab5])
    rfl c5run ?_ ?_
  · norm_num [gridYAt, shapeHAt, strideAt, sIdxOf, Cfg.anchorNumber, c5cfg,
      lab5, cY, pyInt]
  · norm_num [gridXAt, shapeWAt, strideAt, sIdxOf, Cfg.anchorNumber, c5cfg,
      lab5, cX, pyInt]

/-! ## Claim C3 -/

/-- C3 counterexample: 10×10 input, strides [1, 4], anchors 2.2×2.2
(scale 0) and 2×2 (scale 1), ground truth a 2×2 box at the bottom-right
corner. Both anchors are above `ignore_thresh = 1/2` and the global best
is anchor 1, but its positive write targets grid (2,2) outside scale 1's
2×2 extent and is silently dropped: the returned tensor holds no
objectness-1 entry at all, so the best anchor is not made "the sole
positive". -/
theorem C3_counterexample :
    c3cfg.ignore_thresh < (iouListOf c3cfg labBR).getD 1 0 ∧
    multi_gt_creator c3cfg [[labBR]] = Except.ok c3st ∧
    ¬ ∃ b row, flattenOut c3cfg c3st b row 0 = 1 := by
  refine ⟨?_, c3run, ?_⟩
  · norm_num [iouListOf, compute_iou, computeIouOne, set_anchors, iW, iH,
      boxW, boxH, c3cfg, labBR, eps20, List.getD_cons_succ, List.getD_cons_zero]
  · rintro ⟨b, row, hrow⟩
    have hnz : ∀ p ∈ c3cfg.strides.zip c3st, ∀ b' gy gx ab,
        p.2 b' gy gx ab 0 ≠ 1 := by
      intro p hp b' gy gx ab
      have hmem : p.2 ∈ c3st := (List.of_mem_zip hp).2
      simp only [c3st, List.mem_cons, List.mem_singleton,
        List.not_mem_nil, or_false] at hmem
      rcases hmem with hmem | hmem <;> rw [hmem]
      · rw [ignBlock_read0]
        split
        · norm_num
        · show zeroTensor b' gy gx ab 0 ≠ 1
          norm_num [zeroTensor]
      · show zeroTensor b' gy gx ab 0 ≠ 1
        norm_num [zeroTensor]
    have hne := flattenScales_ne c3cfg.h c3cfg.w c3cfg.anchorNumber 0 1
      (by norm_num) (c3cfg.strides.zip c3st) hnz b row
    simp only [flattenOut] at hrow
    exact hne hrow

/-- C3 (amended): for a single-instance batch with normalized
coordinates, a ≥1×1-pixel box and at least one anchor above
`ignore_thresh`, when `multi_gt_creator` returns without error and the
globally best anchor's grid cell is inside its scale's extent: the best
index is the first-max of the IoU vector (ties broken towards the first
flattened index); its entry gets objectness 1; every other anchor above
the threshold has objectness -1 and scale_weight -1 at its cell; every
anchor below the threshold still reads the default objectness 0; and no
cell other than the best anchor's holds objectness 1. -/
theorem C3_amended (c : Cfg) (lab : Label) (st : GtState) (best : ℕ)
    (hstr : c.strides ≠ [])
    (hn : Normalized lab) (hbw : 1 ≤ boxW c lab) (hbh : 1 ≤ boxH c lab)
    (hmask : ∃ x ∈ iouListOf c lab, c.ignore_thresh < x)
    (harg : npArgmax (iouListOf c lab) = some best)
    (hrun : multi_gt_creator c [[lab]] = Except.ok st)
    (hby : gridYAt c lab best < (shapeHAt c best : ℤ))
    (hbx : gridXAt c lab best < (shapeWAt c best : ℤ)) :
    IsFirstMax (iouListOf c lab) best ∧
    readSt st (sIdxOf c best) 0 (gridYAt c lab best).toNat
      (gridXAt c lab best).toNat (abIdxOf c best) 0 = 1 ∧
    (∀ i, i < (iouListOf c lab).length →
      c.ignore_thresh < (iouListOf c lab).getD i 0 → i ≠ best →
      readSt st (sIdxOf c i) 0 (gridYAt c lab i).toNat
        (gridXAt c lab i).toNat (abIdxOf c i) 0 = -1 ∧
      readSt st (sIdxOf c i) 0 (gridYAt c lab i).toNat
        (gridXAt c lab i).toNat (abIdxOf c i) 6 = -1) ∧
    (∀ i, i < (iouListOf c lab).length →
      ¬ c.ignore_thresh < (iouListOf c lab).getD i 0 →
      readSt st (sIdxOf c i) 0 (gridYAt c lab i).toNat
        (gridXAt c lab i).toNat (abIdxOf c i) 0 = 0) ∧
    (∀ s₀ b₀ gy₀ gx₀ ab₀, readSt st s₀ b₀ gy₀ gx₀ ab₀ 0 = 1 →
      s₀ = sIdxOf c best ∧ b₀ = 0 ∧ gy₀ = (gridYAt c lab best).toNat ∧
      gx₀ = (gridXAt c lab best).toNat ∧ ab₀ = abIdxOf c best) := by
  rw [multi_single hstr (multi_ok_notmem hrun)] at hrun
  have hbox := not_skip hbw hbh
  have hnall : ¬ ∀ x ∈ iouListOf c lab, ¬ c.ignore_thresh < x := by
    obtain ⟨x, hx, hθ⟩ := hmask
    exact fun hall => (hall x hx) hθ
  rw [encodeLabel_branch2 hbox hnall harg] at hrun
  have hfm := npArgmax_isFirstMax harg
  have hlen : (initState c.strides).length = c.strides.length := List.length_map _ _
  have hg0 := grids_nonneg hn hbw hbh (strideAt c best)
  obtain ⟨s, hs⟩ := strides_defined_of_inb hby hg0.1
  have hsa := strideAt_eq hs
  simp only [gridYAt, gridXAt, shapeHAt, shapeWAt, hsa] at hby hbx ⊢
  have hgy0 : 0 ≤ pyInt (cY c lab / (s : ℚ)) := (grids_nonneg hn hbw hbh s).1
  have hgx0 : 0 ≤ pyInt (cX c lab / (s : ℚ)) := (grids_nonneg hn hbw hbh s).2
  have hny := npIdx_of_bounds hgy0 hby
  have hnx := npIdx_of_bounds hgx0 hbx
  have hm := best_masked harg hmask
  refine ⟨hfm, ?_, ?_, ?_, ?_⟩
  · exact (igLoop_read_best (iouListOf c lab) 0 _ st hrun hlen (Nat.zero_le _)
      (by rw [Nat.sub_zero]; exact hfm.1) (by rw [Nat.sub_zero]; exact hm)
      hs hny hnx).1
  · intro i hi hmi hib
    obtain ⟨si, gyi, gxi, hsi, hnyi, hnxi, hr0, hr6⟩ :=
      igLoop_read_ign (iouListOf c lab) 0 _ st hrun hlen i (Nat.zero_le _)
        (by rw [Nat.sub_zero]; exact hi) (by rw [Nat.sub_zero]; exact hmi) hib
    have hsai := strideAt_eq hsi
    rw [hsai]
    have hgyi0 : 0 ≤ pyInt (cY c lab / (si : ℚ)) := (grids_nonneg hn hbw hbh si).1
    have hgxi0 : 0 ≤ pyInt (cX c lab / (si : ℚ)) := (grids_nonneg hn hbw hbh si).2
    obtain ⟨hgyi, _⟩ := npIdx_nonneg_inv hgyi0 hnyi
    obtain ⟨hgxi, _⟩ := npIdx_nonneg_inv hgxi0 hnxi
    rw [← hgyi, ← hgxi]
    exact ⟨hr0, hr6⟩
  · intro i hi hmi
    have hfr : ∀ k, k < (iouListOf c lab).length →
        c.ignore_thresh < (iouListOf c lab).getD k 0 →
        ¬(sIdxOf c i = sIdxOf c (0 + k) ∧ 0 = 0 ∧
          abIdxOf c i = abIdxOf c (0 + k)) := by
      rintro k hk hmk ⟨h1, _, h3⟩
      rw [Nat.zero_add] at h1 h3
      have hik : i = k := idx_pair_inj h1 h3
      subst hik
      exact hmi hmk
    have hframe := igLoop_frame (iouListOf c lab) 0 _ st hrun hlen (sIdxOf c i) 0
      (pyInt (cY c lab / (strideAt c i : ℚ))).toNat
      (pyInt (cX c lab / (strideAt c i : ℚ))).toNat (abIdxOf c i) 0 hfr
    rw [hframe, readSt_initState]
  · intro s₀ b₀ gy₀ gx₀ ab₀ h1
    rcases igLoop_cases (iouListOf c lab) 0 _ st hrun hlen hs hny hnx
      s₀ b₀ gy₀ gx₀ ab₀ with hc | hc | hc
    · rw [h1, readSt_initState] at hc
      norm_num at hc
    · rw [h1] at hc
      norm_num at hc
    · exact ⟨hc.1, hc.2.1, hc.2.2.1, hc.2.2.2.1, hc.2.2.2.2⟩

/-- C3 witness: the amended statement discharged on a concrete run
(32×32 input, stride 32, one 16×16 anchor above threshold, centered
16×16 ground truth): index 0 is the first-max and its cell reads
objectness 1. -/
theorem C3_witness :
    IsFirstMax (iouListOf c5cfg lab5) 0 ∧
    readSt c5st (sIdxOf c5cfg 0) 0 (gridYAt c5cfg lab5 0).toNat
      (gridXAt c5cfg lab5 0).toNat (abIdxOf c5cfg 0) 0 = 1 := by
  have hmask : ∃ x ∈ iouListOf c5cfg lab5, c5cfg.ignore_thresh < x := by
    refine ⟨computeIouOne ⟨0, 0, 16, 16⟩
      ⟨0, 0, boxW c5cfg lab5, boxH c5cfg lab5⟩, ?_, ?_⟩
    · simp [iouListOf, compute_iou, set_anchors, c5cfg]
    · norm_num [computeIouOne, iW, iH, boxW, boxH, c5cfg, lab5, eps20]
  have h := C3_amended c5cfg lab5 c5st 0 (by simp [c5cfg])
    ⟨⟨by norm_num [lab5], by norm_num [lab5]⟩, ⟨by norm_num [lab5], by norm_num [lab5]⟩⟩
    (by norm_num [boxW, c5cfg, lab5]) (by norm_num [boxH, c5cfg, lab5])
    hmask rfl c5run
    (by norm_num [gridYAt, shapeHAt, strideAt, sIdxOf, Cfg.anchorNumber, c5cfg,
      lab5, cY, pyInt])
    (by norm_num [gridXAt, shapeWAt, strideAt, sIdxOf, Cfg.anchorNumber, c5cfg,
      lab5, cX, pyInt])
  exact ⟨h.1, h.2.1⟩

/-! ## Claim C2 -/

/-- C2 counterexample: 10×10 input, strides [1, 4], 2×2 ground truth at
the bottom-right corner, both anchors above threshold with the best at
scale 0. The non-best anchor's ignored write at scale 1 targets grid
(2,2), outside that scale's 2×2 extent; since the ignored-anchor writes
carry no bounds check, the whole call raises `IndexError` instead of
silently dropping the write — refuting "every write … including the
ignored-anchor writes … is silently dropped without raising any error". -/
theorem C2_counterexample :
    (shapeHAt c2cfg 1 : ℤ) ≤ gridYAt c2cfg labBR 1 ∧
    multi_gt_creator c2cfg [[labBR]] = Except.error "IndexError" := by
  constructor
  · norm_num [gridYAt, shapeHAt, strideAt, sIdxOf, Cfg.anchorNumber, c2cfg,
      labBR, cY, pyInt]
  · exact c2run

/-- C2 (amended): only the positive-assignment write is bounds-checked —
when its grid cell fails the `grid_y < shape1 and grid_x < shape2`
check, `posAssign` returns the state unchanged and raises no error
(hence every other instance and image is encoded exactly as before);
the ignored-anchor writes are unchecked, and an out-of-range numpy row
index there raises `IndexError`. -/
theorem C2_amended (c : Cfg) (b : ℕ) (lab : Label) (index : ℕ) (st : GtState)
    (hA : c.anchorNumber ≠ 0) {s : ℕ}
    (hs : c.strides.get? (sIdxOf c index) = some s) (hs0 : s ≠ 0) :
    (∀ pbox, (set_anchors c.anchor_size).get? index = some pbox →
      ¬(gridYAt c lab index < (shapeHAt c index : ℤ) ∧
        gridXAt c lab index < (shapeWAt c index : ℤ)) →
      posAssign c b lab index st = Except.ok st) ∧
    (npIdx (gridYAt c lab index) (shapeHAt c index) = none →
      ignAssign c b lab index st = Except.error "IndexError") := by
  have hsa := strideAt_eq hs
  constructor
  · intro pbox hp hout
    simp only [gridYAt, gridXAt, shapeHAt, shapeWAt, hsa] at hout
    exact posAssign_drop st hA hs hs0 hp hout
  · intro hnone
    simp only [gridYAt, shapeHAt, hsa] at hnone
    exact ignAssign_err st hA hs hs0 hnone

/-- C2 witness: the amended statement discharged concretely — the
bounds-checked positive write at grid (2,2) on a 2×2 grid is silently
dropped leaving the state unchanged (`c1cfg`), while the unchecked
ignored write at an out-of-extent cell raises (`c2cfg`, anchor 1). -/
theorem C2_witness :
    posAssign c1cfg 0 labBR 0 (initState [4]) = Except.ok (initState [4]) ∧
    ignAssign c2cfg 0 labBR 1 (initState [1, 4]) = Except.error "IndexError" := by
  constructor
  · exact (C2_amended c1cfg 0 labBR 0 (initState [4])
      (by norm_num [Cfg.anchorNumber, c1cfg]) rfl (by norm_num)).1
      ⟨0, 0, 20, 20⟩ rfl
      (by norm_num [gridYAt, gridXAt, shapeHAt, shapeWAt, strideAt, sIdxOf,
        Cfg.anchorNumber, c1cfg, labBR, cX, cY, pyInt])
  · exact (C2_amended c2cfg 0 labBR 1 (initState [1, 4])
      (by norm_num [Cfg.anchorNumber, c2cfg]) rfl (by norm_num)).2
      (by norm_num [gridYAt, shapeHAt, strideAt, sIdxOf,
        Cfg.anchorNumber, c2cfg, labBR, cY, pyInt, npIdx])

/-! ## Claim C4 -/

/-- C4 counterexample: 3 anchors over 2 strides (3 not divisible by 2) —
`multi_gt_creator` performs no divisibility check and returns normally;
anchors-per-scale silently floor-divides to 1. This refutes the claim
that the encoder (or its setup) fails on indivisible anchor counts. -/
theorem C4_counterexample :
    ¬ (c4cfg.strides.length ∣ c4cfg.anchor_size.length) ∧
    multi_gt_creator c4cfg [[]] = Except.ok (initState [8, 4]) := by
  constructor
  · norm_num [c4cfg]
  · rfl

/-- C4 (amended): the setup-time failures are exactly these —
`generate_anchor` does fail (an `AssertionError`) on mismatched
scale/aspect list lengths, raised before any anchor is built, and
`multi_gt_creator` raises `ZeroDivisionError` at the per-scale `np.zeros`
allocations whenever some stride is 0; but there is no divisibility check
at all: with any anchor list whatsoever and any nonempty list of nonzero
strides, setup succeeds and an empty batch is encoded without error. -/
theorem C4_amended :
    (∀ (input_size : ℕ × ℕ) (stride : ℕ) (anchor_scale : List ℚ)
      (anchor_aspect : List (List ℚ)),
      anchor_scale.length ≠ anchor_aspect.length →
      generate_anchor input_size stride anchor_scale anchor_aspect =
        Except.error "AssertionError") ∧
    (∀ (h w : ℕ) (strides : List ℕ) (anchor_size : List (ℚ × ℚ)) (thr : ℚ)
      (lg : ℚ → ℚ) (label_lists : List (List Label)), 0 ∈ strides →
      multi_gt_creator ⟨h, w, strides, anchor_size, thr, lg⟩ label_lists =
        Except.error "ZeroDivisionError") ∧
    (∀ (h w : ℕ) (strides : List ℕ) (anchor_size : List (ℚ × ℚ)) (thr : ℚ)
      (lg : ℚ → ℚ), strides ≠ [] → 0 ∉ strides →
      multi_gt_creator ⟨h, w, strides, anchor_size, thr, lg⟩ [[]] =
        Except.ok (initState strides)) := by
  refine ⟨?_, ?_, ?_⟩
  · intro input_size stride scales aspects hne
    simp only [generate_anchor, if_neg hne]
  · intro h w strides anchor_size thr lg label_lists hmem
    have hl : strides.length ≠ 0 := by
      intro h0
      rw [List.length_eq_zero.mp h0] at hmem
      exact List.not_mem_nil 0 hmem
    simp only [multi_gt_creator, if_neg hl, if_pos hmem]
  · intro h w strides anchor_size thr lg hne h0
    have hl : strides.length ≠ 0 := fun hz => hne (List.length_eq_zero.mp hz)
    simp only [multi_gt_creator, if_neg hl, if_neg h0, batchLoop, labelLoop]

/-- C4 witness: the amended statement discharged concretely — a
mismatched configuration aborts `generate_anchor`, a zero stride aborts
`multi_gt_creator` at setup, and a non-divisible anchor/stride
configuration passes `multi_gt_creator` setup untouched. -/
theorem C4_witness :
    generate_anchor (416, 416) 32 [1/4] [] = Except.error "AssertionError" ∧
    multi_gt_creator ⟨16, 16, [0], [(1, 1)], 1/2, log0⟩ [[]] =
      Except.error "ZeroDivisionError" ∧
    multi_gt_creator ⟨16, 16, [16], [(1, 1)], 1/2, log0⟩ [[]] =
      Except.ok (initState [16]) :=
  ⟨C4_amended.1 (416, 416) 32 [1/4] [] (by norm_num),
   C4_amended.2.1 16 16 [0] [(1, 1)] (1/2) log0 [[]] (by simp),
   C4_amended.2.2 16 16 [16] [(1, 1)] (1/2) log0 (by simp) (by simp)⟩

/-! ## Lemmas about the torch IoU family over ℝ -/

lemma reps20_pos : (0 : ℝ) < reps20 := by norm_num [reps20]

lemma reps15_pos : (0 : ℝ) < reps15 := by norm_num [reps15]

/-- Disjoint boxes have a zero `(tl < br)` indicator on some axis, so
`area_i = 0` and `iou_score = 0` (numpy division of an exact `0`). -/
lemma iou_score_of_disjoint (a b : RBox) (hd : DisjointBoxes a b) :
    iou_score a b = 0 := by
  simp only [iou_score]
  rcases hd with h | h
  · rw [if_neg (not_lt.mpr h)]
    simp
  · rw [if_neg (not_lt.mpr h)]
    simp

/-- Overlap-free on an axis forces full separation on that axis when both
boxes are non-degenerate there. -/
lemma disjoint_sep {u1 u2 v1 v2 : ℝ} (hu : u1 < u2) (hv : v1 < v2)
    (h : min u2 v2 ≤ max u1 v1) : u2 ≤ v1 ∨ v2 ≤ u1 := by
  by_contra hc
  push_neg at hc
  exact absurd (max_lt (lt_min hu hc.2) (lt_min hc.1 hv)) (not_lt.mpr h)

/-- Fully separated non-degenerate intervals have distinct midpoints. -/
lemma center_ne_of_sep {u1 u2 v1 v2 : ℝ} (hu : u1 < u2) (hv : v1 < v2)
    (h : u2 ≤ v1 ∨ v2 ≤ u1) : (v1 + v2) / 2 - (u1 + u2) / 2 ≠ 0 := by
  rcases h with h | h
  · exact sub_ne_zero.mpr (ne_of_gt (by linarith))
  · exact sub_ne_zero.mpr (ne_of_lt (by linarith))

/-- Disjoint non-degenerate boxes have distinct centers on some axis. -/
lemma disjoint_centers_ne (a b : RBox) (ha : Nondeg a) (hb : Nondeg b)
    (hd : DisjointBoxes a b) :
    (b.x1 + b.x2) / 2 - (a.x1 + a.x2) / 2 ≠ 0 ∨
    (b.y1 + b.y2) / 2 - (a.y1 + a.y2) / 2 ≠ 0 := by
  rcases hd with h | h
  · exact Or.inl (center_ne_of_sep ha.1 hb.1 (disjoint_sep ha.1 hb.1 h))
  · exact Or.inr (center_ne_of_sep ha.2 hb.2 (disjoint_sep ha.2 hb.2 h))

/-- `DIoU` is strictly negative on disjoint non-degenerate boxes: the IoU
term is 0 while the center-distance penalty is strictly positive. -/
lemma DIoU_neg_of_disjoint (a b : RBox) (ha : Nondeg a) (hb : Nondeg b)
    (hd : DisjointBoxes a b) : DIoU a b < 0 := by
  have hiou : IoU a b = 0 := iou_score_of_disjoint a b hd
  simp only [DIoU, hiou]
  set dx := (b.x1 + b.x2) / 2 - (a.x1 + a.x2) / 2 with hdx
  set dy := (b.y1 + b.y2) / 2 - (a.y1 + a.y2) / 2 with hdy
  rw [Real.sq_sqrt (by positivity : (0 : ℝ) ≤ dx ^ 2 + dy ^ 2)]
  have hnum : 0 < dx ^ 2 + dy ^ 2 := by
    rcases disjoint_centers_ne a b ha hb hd with h | h
    · have h3 : 0 < |dx| := abs_pos.mpr (by rw [hdx]; exact h)
      nlinarith [sq_abs dx, sq_nonneg dy]
    · have h3 : 0 < |dy| := abs_pos.mpr (by rw [hdy]; exact h)
      nlinarith [sq_abs dy, sq_nonneg dx]
  have hden : 0 < Real.sqrt ((max (max (max a.x1 a.x2) b.x1) b.x2 -
        min (min (min a.x1 a.x2) b.x1) b.x2) ^ 2 +
      (max (max (max a.y1 a.y2) b.y1) b.y2 -
        min (min (min a.y1 a.y2) b.y1) b.y2) ^ 2) ^ 2 + reps20 := by
    have := sq_nonneg (Real.sqrt ((max (max (max a.x1 a.x2) b.x1) b.x2 -
        min (min (min a.x1 a.x2) b.x1) b.x2) ^ 2 +
      (max (max (max a.y1 a.y2) b.y1) b.y2 -
        min (min (min a.y1 a.y2) b.y1) b.y2) ^ 2))
    linarith [reps20_pos]
  have := div_pos hnum hden
  linarith

/-- The aspect penalty of the source's `CIoU` is strictly positive on
every input, thanks to the extra `+1e-15` inside the square's bracket. -/
lemma vAspect_pos (a b : RBox) : 0 < vAspect a b := by
  simp only [vAspect]
  exact mul_pos (div_pos (by norm_num) (pow_pos Real.pi_pos 2))
    (add_pos_of_nonneg_of_pos (sq_nonneg _) reps15_pos)

/-- On disjoint boxes `alpha > 0`, so `CIoU` lies strictly below `DIoU`. -/
lemma CIoU_lt_DIoU_of_disjoint (a b : RBox) (hd : DisjointBoxes a b) :
    CIoU a b < DIoU a b := by
  have hiou : IoU a b = 0 := iou_score_of_disjoint a b hd
  have hv := vAspect_pos a b
  have halpha : 0 < alphaOf a b := by
    simp only [alphaOf, hiou]
    exact div_pos hv (by linarith)
  simp only [CIoU]
  nlinarith [mul_pos halpha hv]

/-! ## Claim C9 -/

/-- C9: for every pair of disjoint non-degenerate corner-form boxes,
`IoU` returns 0, `DIoU` is strictly negative, and `CIoU ≤ DIoU`. -/
theorem C9_disjoint_family (a b : RBox) (ha : Nondeg a) (hb : Nondeg b)
    (hd : DisjointBoxes a b) :
    IoU a b = 0 ∧ DIoU a b < 0 ∧ CIoU a b ≤ DIoU a b :=
  ⟨iou_score_of_disjoint a b hd, DIoU_neg_of_disjoint a b ha hb hd,
   le_of_lt (CIoU_lt_DIoU_of_disjoint a b hd)⟩

/-- C9 witness: the family discharged on the concrete disjoint unit boxes
`[0,0,1,1]` and `[2,2,3,3]`. -/
theorem C9_witness :
    IoU rA rB = 0 ∧ DIoU rA rB < 0 ∧ CIoU rA rB ≤ DIoU rA rB :=
  C9_disjoint_family rA rB (by norm_num [Nondeg, rA]) (by norm_num [Nondeg, rB])
    (by norm_num [DisjointBoxes, rA, rB])

/-! ## Claim C6 -/

/-- C6 counterexample: on the equal-aspect boxes `rA`, `rB` the spec's
aspect-penalty formula vanishes (so its claimed decomposition gives
exactly `DIoU`), but the source's `CIoU` adds `1e-15` *inside* the
squared bracket, making its penalty strictly positive — the two
decompositions disagree. -/
theorem C6_counterexample :
    vSpecFormula rA rB = 0 ∧ CIoU rA rB ≠ CIoU_specFormula rA rB := by
  have hv0 : vSpecFormula rA rB = 0 := by
    simp only [vSpecFormula]
    rw [show (rA.x2 - rA.x1) / (rA.y2 - rA.y1 + reps15) =
        (rB.x2 - rB.x1) / (rB.y2 - rB.y1 + reps15) by norm_num [rA, rB]]
    simp
  refine ⟨hv0, ?_⟩
  have hcs : CIoU_specFormula rA rB = DIoU rA rB := by
    simp only [CIoU_specFormula, hv0]
    ring
  rw [hcs]
  exact ne_of_lt (CIoU_lt_DIoU_of_disjoint rA rB
    (by norm_num [DisjointBoxes, rA, rB]))

/-- C6 (amended): `CIoU = DIoU − α·v` holds with
`v = (4/π²)·((atan(w1/(h1+1e-15)) − atan(w2/(h2+1e-15)))² + 1e-15)` — the
`1e-15` offsets the height denominators *and* is added once more inside
the squared bracket — and `α = v/((1−iou)+v)`; consequently the source's
`v` strictly exceeds the spec's formula on every input. -/
theorem C6_amended (a b : RBox) :
    CIoU a b =
      DIoU a b - vAspect a b / ((1 - IoU a b) + vAspect a b) * vAspect a b ∧
    vAspect a b =
      4 / Real.pi ^ 2 *
        ((Real.arctan ((a.x2 - a.x1) / (a.y2 - a.y1 + reps15)) -
          Real.arctan ((b.x2 - b.x1) / (b.y2 - b.y1 + reps15))) ^ 2 + reps15) ∧
    vSpecFormula a b < vAspect a b := by
  refine ⟨rfl, rfl, ?_⟩
  simp only [vAspect, vSpecFormula, mul_add]
  have hk : (0 : ℝ) < 4 / Real.pi ^ 2 * reps15 :=
    mul_pos (div_pos (by norm_num) (pow_pos Real.pi_pos 2)) reps15_pos
  linarith

/-! ## Claim C8 -/

/-- C8 counterexample: self-IoU is *not* exactly 1 — the `+1e-20` union
stabilizer makes `IoU(a,a) = S/(S+1e-20) < 1` — and `compute_iou` at a
shape-identical anchor likewise returns `S/(S+1e-20)`, not 1. -/
theorem C8_counterexample :
    IoU r8 r8 ≠ 1 ∧ compute_iou (set_anchors [(2, 3)]) ⟨0, 0, 2, 3⟩ ≠ [1] := by
  constructor
  · simp only [IoU, iou_score, r8, max_self, min_self]
    norm_num [reps20]
  · simp only [compute_iou, set_anchors, List.map_cons, List.map_nil,
      computeIouOne, iW, iH]
    norm_num [eps20]

/-- C8 (amended): the exact values are `S/(S+ε)`: for every non-degenerate
box `IoU(a,a) = area(a)/(area(a)+1e-20)`, and `compute_iou` at an anchor
shape-identical to the gt box yields `wh/(wh+1e-20)` at that position. -/
theorem C8_amended :
    (∀ a : RBox, Nondeg a →
      IoU a a = (a.x2 - a.x1) * (a.y2 - a.y1) /
        ((a.x2 - a.x1) * (a.y2 - a.y1) + reps20)) ∧
    (∀ (szs : List (ℚ × ℚ)) (k : ℕ) (w h : ℚ), szs.get? k = some (w, h) →
      (compute_iou (set_anchors szs) ⟨0, 0, w, h⟩).get? k =
        some (w * h / (w * h + eps20))) := by
  constructor
  · intro a ha
    simp only [IoU, iou_score, max_self, min_self, if_pos ha.1, if_pos ha.2,
      mul_one, one_mul]
    ring_nf
  · intro szs k w h hk
    have hone : computeIouOne ⟨0, 0, w, h⟩ ⟨0, 0, w, h⟩ =
        w * h / (w * h + eps20) := by
      simp only [computeIouOne, iW, iH, min_self, max_self]
      ring_nf
    rw [List.get?_eq_getElem?] at hk
    rw [List.get?_eq_getElem?]
    simp only [compute_iou, set_anchors, List.map_map, List.getElem?_map, hk,
      Option.map_some', Function.comp_apply]
    rw [hone]

/-- C8 witness: the amended values evaluated on concrete boxes — the unit
of discrepancy is exactly the `1e-20` stabilizer. -/
theorem C8_witness :
    IoU r8 r8 = 4 / (4 + reps20) ∧
    (compute_iou (set_anchors [(2, 3)]) ⟨0, 0, 2, 3⟩).get? 0 =
      some (6 / (6 + eps20)) := by
  constructor
  · have h := C8_amended.1 r8 (by norm_num [Nondeg, r8])
    rw [h]
    norm_num [r8]
  · have h := C8_amended.2 [(2, 3)] 0 2 3 rfl
    rw [h]
    norm_num

/-! ## Claim C10 -/

/-- C10: `compute_iou` does not clamp negative intersection extents: on
the doubly-disjoint center-form boxes `c10ab`, `c10gt` both extents are
negative, their product `S_I` is positive, and the returned IoU is
strictly positive (`1/(31+1e-20)`) instead of 0. -/
theorem C10_no_clamp :
    c10ab.cx + c10ab.w / 2 < c10gt.cx - c10gt.w / 2 ∧
    c10ab.cy + c10ab.h / 2 < c10gt.cy - c10gt.h / 2 ∧
    iW c10ab c10gt < 0 ∧ iH c10ab c10gt < 0 ∧
    0 < iH c10ab c10gt * iW c10ab c10gt ∧
    compute_iou [c10ab] c10gt = [1 / (31 + eps20)] ∧
    0 < 1 / (31 + eps20) := by
  refine ⟨by norm_num [c10ab, c10gt], by norm_num [c10ab, c10gt],
    by norm_num [iW, c10ab, c10gt], by norm_num [iH, c10ab, c10gt],
    by norm_num [iW, iH, c10ab, c10gt], ?_, by norm_num [eps20]⟩
  norm_num [compute_iou, computeIouOne, iW, iH, c10ab, c10gt]

/-! ## Lemmas about the dual-number replay of CIoU -/

/-- The concrete dual IoU of `aD`, `bD`: value `1/(3+1e-20)`, derivative
`(3+1e-20)/(3+1e-20)²` along `aD.x2` — in particular nonzero. -/
lemma iouD_eval :
    IoUD aD bD = ⟨1 / (3 + reps20), (3 + reps20) / (3 + reps20) ^ 2⟩ := by
  simp only [IoUD, iou_scoreD, aD, bD, dMax, dMin, dAdd, dSub, dMul, dDiv,
    dConst, dLtInd]
  norm_num

/-- The concrete dual aspect penalty of `aD`, `bD`: the two boxes share an
aspect ratio, so the squared bracket vanishes to first order and `v` is
the constant `4/π²·1e-15` with zero derivative. -/
lemma vD_eval : vAspectD aD bD = ⟨4 / Real.pi ^ 2 * reps15, 0⟩ := by
  simp only [vAspectD, aD, bD, dAdd, dSub, dMul, dDiv, dConst, dAtan, dSq]
  norm_num

/-- With a derivative-free `v`, detaching the IoU inside `alpha` keeps
the value of `CIoU` and shifts its derivative by exactly
`v²·iou.der/((1−iou)+v)²`. -/
lemma ciouD_detach_eval (a b : DBox) (hv : (vAspectD a b).der = 0) :
    (CIoUD a b).val = (CIoU_detachD a b).val ∧
    (CIoU_detachD a b).der - (CIoUD a b).der =
      (vAspectD a b).val ^ 2 * (IoUD a b).der /
        ((1 - (IoUD a b).val) + (vAspectD a b).val) ^ 2 := by
  simp only [CIoUD, CIoU_detachD, dSub, dAdd, dMul, dDiv, dConst, dDetach]
  rw [hv]
  exact ⟨trivial, by ring⟩

/-! ## Claim C7 -/

/-- C7 counterexample: replaying `CIoU` op for op on dual numbers (one
derivative rule per torch operation) on the concrete boxes `aD`, `bD`
shows the source computes `alpha` from the *plain* differentiable IoU:
inserting the detach the spec claims is there leaves the value unchanged
but changes the derivative — so the two computations are not the same
autograd graph, and no stop-gradient exists in the source. -/
theorem C7_counterexample :
    (CIoUD aD bD).val = (CIoU_detachD aD bD).val ∧
    (CIoUD aD bD).der ≠ (CIoU_detachD aD bD).der := by
  obtain ⟨hval, hder⟩ := ciouD_detach_eval aD bD (by rw [vD_eval])
  refine ⟨hval, fun h => ?_⟩
  simp only [iouD_eval, vD_eval] at hder
  rw [← h, sub_self] at hder
  have h3 : (0 : ℝ) < 3 + reps20 := by norm_num [reps20]
  have hvv : (0 : ℝ) < 4 / Real.pi ^ 2 * reps15 :=
    mul_pos (div_pos (by norm_num) (pow_pos Real.pi_pos 2)) reps15_pos
  have hbase : (0 : ℝ) < 1 - 1 / (3 + reps20) + 4 / Real.pi ^ 2 * reps15 := by
    have h1 : 1 / (3 + reps20) < 1 := by
      rw [div_lt_one h3]
      norm_num [reps20]
    linarith
  have hE : (0 : ℝ) < (4 / Real.pi ^ 2 * reps15) ^ 2 *
      ((3 + reps20) / (3 + reps20) ^ 2) /
      (1 - 1 / (3 + reps20) + 4 / Real.pi ^ 2 * reps15) ^ 2 :=
    div_pos (mul_pos (pow_pos hvv 2) (div_pos h3 (pow_pos h3 2)))
      (pow_pos hbase 2)
  exact absurd hder.symm (ne_of_gt hE)

/-- C7 (amended): the source's `CIoU` computes `alpha` from the plain,
still-differentiable IoU (no `.detach()` anywhere): whenever the aspect
penalty carries no derivative, the detached variant the spec describes
agrees with the source in value but its derivative differs from the
source's by exactly `v²·iou.der/((1−iou)+v)²` — nonzero whenever the IoU
does carry gradient. -/
theorem C7_amended (a b : DBox) (hv : (vAspectD a b).der = 0) :
    (CIoUD a b).val = (CIoU_detachD a b).val ∧
    (CIoU_detachD a b).der - (CIoUD a b).der =
      (vAspectD a b).val ^ 2 * (IoUD a b).der /
        ((1 - (IoUD a b).val) + (vAspectD a b).val) ^ 2 :=
  ciouD_detach_eval a b hv

/-- C7 witness: the amended statement discharged on the concrete dual
boxes `aD`, `bD`, whose aspect penalty is derivative-free. -/
theorem C7_witness :
    (vAspectD aD bD).der = 0 ∧
    (CIoU_detachD aD bD).der - (CIoUD aD bD).der =
      (vAspectD aD bD).val ^ 2 * (IoUD aD bD).der /
        ((1 - (IoUD aD bD).val) + (vAspectD aD bD).val) ^ 2 :=
  ⟨by rw [vD_eval], (C7_amended aD bD (by rw [vD_eval])).2⟩

end Yolo
